import Mathlib

/-!
# Verification of the Koto iterator subsystem and parser scope analysis

A shallow embedding of the parts of the Koto repository that the
specification's claims are about:

* the iterator module's eager operations and lazy adaptors
  (`core/runtime/src/core_lib/iterator.rs`,
   `src/runtime/src/core/iterator/adaptors.rs`), and
* the parser's per-frame scope/capture bookkeeping
  (`src/parser/src/parser.rs`).

Rust machine integers (`usize`) are modelled as `Nat` with the width
`2 ^ 64` made explicit where overflow behaviour matters.  Fallible Rust
code returning `Result` is modelled with `Except`.  Script callbacks
that re-enter the VM (`run_function`, `run_binary_op`) are modelled as
explicit function parameters, since the VM itself is outside the
specified core.
-/

namespace Koto

/-- A runtime error.  The source type wraps a message and, via
`with_prefix`, a chain of adaptor prefixes such as "iterator.each". -/
structure RtErr where
  tags : List String
  message : String
deriving DecidableEq, Repr

/-- Model of `RuntimeError::with_prefix`: record an adaptor prefix on an
error that is passed through an adaptor. -/
def RtErr.prefixed (e : RtErr) (p : String) : RtErr :=
  { e with tags := p :: e.tags }

/-- The subset of the runtime `Value` type used by the iterator module:
`Null`, `Bool`, numbers (modelled as `Int`), strings, tuples, lists,
ranges, functions (callables, identified by an id) and iterator
handles (indices into an iterator store). -/
inductive Value where
  | null
  | bool (b : Bool)
  | int (n : Int)
  | str (s : String)
  | tuple (vs : List Value)
  | list (vs : List Value)
  | range (lo hi : Int)
  | fnVal (id : Nat)
  | iterator (h : Nat)
deriving Repr

/-- Modelled from the spec: `Value::is_callable` lives outside `src/`
(in the runtime's value module); per the spec only function values are
callable, which the model represents with the `fnVal` constructor. -/
def Value.is_callable : Value → Bool
  | .fnVal _ => true
  | _ => false

/-- Modelled from the spec: `Value::is_iterable` lives outside `src/`;
per the spec's glossary an iterable is "any runtime value the VM can
turn into an iterator (lists, tuples, maps, strings, ranges, existing
iterators)"; of these the model carries lists, tuples, ranges and
iterators. -/
def Value.is_iterable : Value → Bool
  | .list _ => true
  | .tuple _ => true
  | .range _ _ => true
  | .iterator _ => true
  | _ => false

/-- `ValueIteratorOutput` (aliased `Output` in the source): a scalar
value, a key/value pair, or an error. -/
inductive Output where
  | value (v : Value)
  | valuePair (k v : Value)
  | error (e : RtErr)
deriving Repr

/-- `CallArgs`, the argument shapes accepted by the VM's
`run_function` seam. -/
inductive CallArgs where
  | single (v : Value)
  | asTuple (vs : List Value)
  | separate (vs : List Value)
deriving Repr

/-- The binary operators dispatched through the VM by the iterator
module: `BinaryOp::Add`, `BinaryOp::Multiply`, `BinaryOp::Less`. -/
inductive BinaryOp where
  | add
  | multiply
  | less
deriving DecidableEq, Repr

/-- `collect_pair` from `core_lib/iterator.rs`: a `ValuePair` output is
collapsed into a 2-tuple value; other outputs pass through. -/
def collect_pair : Output → Output
  | .valuePair first second => .value (.tuple [first, second])
  | out => out

/-- `iter_output_to_result` from `core_lib/iterator.rs`: one iterator
output converted to the result of `iterator.next` / `next_back`. -/
def iter_output_to_result : Option Output → Except RtErr Value
  | some (.value v) => .ok v
  | some (.valuePair first second) => .ok (.tuple [first, second])
  | some (.error e) => .error e
  | none => .ok .null

/-! ## `usize` arithmetic for size hints (claim C6) -/

/-- The number of values of Rust's 64-bit `usize`. -/
def USIZE : Nat := 2 ^ 64

/-- `usize::saturating_add`. -/
def saturating_add (a b : Nat) : Nat :=
  min (a + b) (USIZE - 1)

/-- `usize::checked_add`: `none` on overflow. -/
def checked_add (a b : Nat) : Option Nat :=
  if a + b < USIZE then some (a + b) else none

/-- `Chain::size_hint` from `src/runtime/src/core/iterator/adaptors.rs`
as a function of the chain's state: the optional first sub-iterator's
hint (`none` once `iter_a` is exhausted) and the second sub-iterator's
hint.  Lower bounds are combined with `saturating_add`; upper bounds
with `checked_add` when both are present. -/
def chainSizeHint : Option (Nat × Option Nat) → Nat × Option Nat → Nat × Option Nat
  | some (lower_a, upper_a), (lower_b, upper_b) =>
      let lower := saturating_add lower_a lower_b
      let upper :=
        match upper_a, upper_b with
        | some a, some b => checked_add a b
        | _, _ => none
      (lower, upper)
  | none, hint_b => hint_b

/-! ## Value equality (for `DataMap` keys in `to_map`) -/

mutual

/-- Structural equality on values, modelling the `Eq` implementation
used for `ValueKey` map keys. -/
def Value.beq : Value → Value → Bool
  | .null, .null => true
  | .bool a, .bool b => a == b
  | .int a, .int b => a == b
  | .str a, .str b => a == b
  | .tuple a, .tuple b => Value.beqList a b
  | .list a, .list b => Value.beqList a b
  | .range a b, .range c d => a == c && b == d
  | .fnVal a, .fnVal b => a == b
  | .iterator a, .iterator b => a == b
  | _, _ => false

/-- Elementwise equality of value lists. -/
def Value.beqList : List Value → List Value → Bool
  | [], [] => true
  | a :: as', b :: bs' => Value.beq a b && Value.beqList as' bs'
  | _, _ => false

end

/-! ## Eager iterator operations

Each operation from `core_lib/iterator.rs` is modelled as a function of
the sequence of outputs its iterator would yield, with the VM seams
(`run_function`, `run_binary_op`, `ValueKey::try_from`, display) as
function parameters.  `all`, `any`, `position` and `consume` carry a
ghost trace of the `CallArgs` passed to the user callback, so that the
calling convention for key/value pairs can be stated (claim C10): the
first component of the result is the operation's return value, exactly
as computed by the source. -/

/-- The type error raised when a predicate returns a non-boolean. -/
def predTypeErr : RtErr :=
  ⟨[], "expected a Bool to be returned from the predicate"⟩

/-- The error used to model the source's `unreachable!()` arms (after
`collect_pair` no `ValuePair` output can occur; the lemmas below never
reach this value). -/
def unreachableErr : RtErr :=
  ⟨[], "unreachable"⟩

/-- `iterator.all`: result and ghost trace of callback arguments. -/
def allOp (runPred : CallArgs → Except RtErr Value) :
    List Output → Except RtErr Value × List CallArgs
  | [] => (.ok (.bool true), [])
  | out :: rest =>
    match out with
    | .error e => (.error e, [])
    | .value v => allStep runPred (.single v) rest
    | .valuePair a b => allStep runPred (.asTuple [a, b]) rest
where
  /-- One predicate call of `all`, then the rest of the loop. -/
  allStep (runPred : CallArgs → Except RtErr Value) (args : CallArgs)
      (rest : List Output) : Except RtErr Value × List CallArgs :=
    match runPred args with
    | .ok (.bool false) => (.ok (.bool false), [args])
    | .ok (.bool true) =>
        let r := allOp runPred rest
        (r.1, args :: r.2)
    | .ok _ => (.error predTypeErr, [args])
    | .error e => (.error e, [args])

/-- `iterator.any`: result and ghost trace of callback arguments. -/
def anyOp (runPred : CallArgs → Except RtErr Value) :
    List Output → Except RtErr Value × List CallArgs
  | [] => (.ok (.bool false), [])
  | out :: rest =>
    match out with
    | .error e => (.error e, [])
    | .value v => anyStep runPred (.single v) rest
    | .valuePair a b => anyStep runPred (.asTuple [a, b]) rest
where
  /-- One predicate call of `any`, then the rest of the loop. -/
  anyStep (runPred : CallArgs → Except RtErr Value) (args : CallArgs)
      (rest : List Output) : Except RtErr Value × List CallArgs :=
    match runPred args with
    | .ok (.bool true) => (.ok (.bool true), [args])
    | .ok (.bool false) =>
        let r := anyOp runPred rest
        (r.1, args :: r.2)
    | .ok _ => (.error predTypeErr, [args])
    | .error e => (.error e, [args])

/-- `iterator.position` (with the running index made explicit): result
and ghost trace of callback arguments. -/
def positionOp (runPred : CallArgs → Except RtErr Value) (i : Nat) :
    List Output → Except RtErr Value × List CallArgs
  | [] => (.ok .null, [])
  | out :: rest =>
    match out with
    | .error e => (.error e, [])
    | .value v => positionStep runPred i (.single v) rest
    | .valuePair a b => positionStep runPred i (.asTuple [a, b]) rest
where
  /-- One predicate call of `position`, then the rest of the loop. -/
  positionStep (runPred : CallArgs → Except RtErr Value) (i : Nat)
      (args : CallArgs) (rest : List Output) :
      Except RtErr Value × List CallArgs :=
    match runPred args with
    | .ok (.bool true) => (.ok (.int i), [args])
    | .ok (.bool false) =>
        let r := positionOp runPred (i + 1) rest
        (r.1, args :: r.2)
    | .ok _ => (.error predTypeErr, [args])
    | .error e => (.error e, [args])

/-- `iterator.consume` without a consumer function: drain, propagating
the first error. -/
def consumeDrain : List Output → Except RtErr Value
  | [] => .ok .null
  | .error e :: _ => .error e
  | _ :: rest => consumeDrain rest

/-- `iterator.consume` with a consumer function: result and ghost trace
of callback arguments. -/
def consumeWith (runF : CallArgs → Except RtErr Value) :
    List Output → Except RtErr Value × List CallArgs
  | [] => (.ok .null, [])
  | out :: rest =>
    match out with
    | .error e => (.error e, [])
    | .value v => consumeStep runF (.single v) rest
    | .valuePair a b => consumeStep runF (.asTuple [a, b]) rest
where
  /-- One consumer call of `consume`, then the rest of the loop. -/
  consumeStep (runF : CallArgs → Except RtErr Value) (args : CallArgs)
      (rest : List Output) : Except RtErr Value × List CallArgs :=
    match runF args with
    | .ok _ =>
        let r := consumeWith runF rest
        (r.1, args :: r.2)
    | .error e => (.error e, [args])

/-- `iterator.count`. -/
def countOp (n : Nat) : List Output → Except RtErr Value
  | [] => .ok (.int n)
  | .error e :: _ => .error e
  | _ :: rest => countOp (n + 1) rest

/-- `iterator.find`: the outputs are passed through `collect_pair`, so
the predicate always receives a single value. -/
def findOp (runPred : CallArgs → Except RtErr Value) :
    List Output → Except RtErr Value
  | [] => .ok .null
  | out :: rest =>
    match collect_pair out with
    | .value v =>
      match runPred (.single v) with
      | .ok (.bool true) => .ok v
      | .ok (.bool false) => findOp runPred rest
      | .ok _ => .error predTypeErr
      | .error e => .error e
    | .error e => .error e
    | .valuePair _ _ => .error unreachableErr

/-- `iterator.fold` with a script folding function (called through the
VM with `CallArgs::Separate(&[acc, value])`, modelled as a binary
function). -/
def foldOp (runF : Value → Value → Except RtErr Value) (acc : Value) :
    List Output → Except RtErr Value
  | [] => .ok acc
  | out :: rest =>
    match collect_pair out with
    | .value v =>
      match runF acc v with
      | .ok acc' => foldOp runF acc' rest
      | .error e => .error e
    | .error e => .error e
    | .valuePair _ _ => .error unreachableErr

/-- `iterator.last`: the running result starts as `Null`. -/
def lastOp (result : Value) : List Output → Except RtErr Value
  | [] => .ok result
  | out :: rest =>
    match collect_pair out with
    | .value v => lastOp v rest
    | .error e => .error e
    | .valuePair _ _ => .error unreachableErr

/-- `fold_with_operator` from `core_lib/iterator.rs`: reduce with a
binary operator dispatched through the VM (`run_binary_op` is the
`runOp` parameter).  `iterator.sum` is this with `BinaryOp::Add`,
`iterator.product` with `BinaryOp::Multiply`. -/
def fold_with_operator (runOp : BinaryOp → Value → Value → Except RtErr Value)
    (result : Value) (operator : BinaryOp) :
    List Output → Except RtErr Value
  | [] => .ok result
  | out :: rest =>
    match collect_pair out with
    | .value rhs_value =>
      match runOp operator result rhs_value with
      | .ok result' => fold_with_operator runOp result' operator rest
      | .error e => .error e
    | .error e => .error e
    | .valuePair _ _ => .error unreachableErr

/-- `iterator.sum`: `fold_with_operator` over `BinaryOp::Add`. -/
def sumOp (runOp : BinaryOp → Value → Value → Except RtErr Value)
    (initial_value : Value) (outs : List Output) : Except RtErr Value :=
  fold_with_operator runOp initial_value .add outs

/-- `iterator.product`: `fold_with_operator` over `BinaryOp::Multiply`. -/
def productOp (runOp : BinaryOp → Value → Value → Except RtErr Value)
    (initial_value : Value) (outs : List Output) : Except RtErr Value :=
  fold_with_operator runOp initial_value .multiply outs

/-- `InvertResult` from `core_lib/iterator.rs`. -/
inductive InvertResult where
  | yes
  | no
deriving DecidableEq, Repr

/-- The error raised when the script `<` operator returns a
non-boolean. -/
def comparisonTypeErr : RtErr :=
  ⟨[], "expected Bool from less-than comparison"⟩

/-- `compare_values` from `core_lib/iterator.rs`: compare two values
with `BinaryOp::Less` through the VM; return the lesser unless
`invert_result` is `Yes`. -/
def compare_values (runOp : BinaryOp → Value → Value → Except RtErr Value)
    (a b : Value) (invert_result : InvertResult) : Except RtErr Value :=
  match runOp .less a b with
  | .ok (.bool true) =>
    match invert_result with
    | .no => .ok a
    | .yes => .ok b
  | .ok (.bool false) =>
    match invert_result with
    | .no => .ok b
    | .yes => .ok a
  | .ok _ => .error comparisonTypeErr
  | .error e => .error e

/-- The loop of `run_iterator_comparison` from `core_lib/iterator.rs`,
with the running `Option<Value>` accumulator explicit. -/
def run_iterator_comparison_loop
    (runOp : BinaryOp → Value → Value → Except RtErr Value)
    (invert_result : InvertResult) (result : Option Value) :
    List Output → Except RtErr (Option Value)
  | [] => .ok result
  | out :: rest =>
    match collect_pair out with
    | .value v =>
      match result with
      | some r =>
        match compare_values runOp r v invert_result with
        | .ok r' => run_iterator_comparison_loop runOp invert_result (some r') rest
        | .error e => .error e
      | none => run_iterator_comparison_loop runOp invert_result (some v) rest
    | .error e => .error e
    | .valuePair _ _ => .error unreachableErr

/-- `run_iterator_comparison`: the final `result.unwrap_or_default()`
produces `Null` on an empty iterator. -/
def run_iterator_comparison
    (runOp : BinaryOp → Value → Value → Except RtErr Value)
    (invert_result : InvertResult) (outs : List Output) :
    Except RtErr Value :=
  match run_iterator_comparison_loop runOp invert_result none outs with
  | .ok (some v) => .ok v
  | .ok none => .ok .null
  | .error e => .error e

/-- `iterator.min` without a key function
(`run_iterator_comparison` with `InvertResult::No`). -/
def minOp (runOp : BinaryOp → Value → Value → Except RtErr Value)
    (outs : List Output) : Except RtErr Value :=
  run_iterator_comparison runOp .no outs

/-- `iterator.max` without a key function
(`run_iterator_comparison` with `InvertResult::Yes`). -/
def maxOp (runOp : BinaryOp → Value → Value → Except RtErr Value)
    (outs : List Output) : Except RtErr Value :=
  run_iterator_comparison runOp .yes outs

/-- The loop of `iterator.min_max` without a key function, with the
running `Option<(min, max)>` accumulator explicit. -/
def min_maxLoop (runOp : BinaryOp → Value → Value → Except RtErr Value)
    (result : Option (Value × Value)) :
    List Output → Except RtErr Value
  | [] =>
    match result with
    | some (mn, mx) => .ok (.tuple [mn, mx])
    | none => .ok .null
  | out :: rest =>
    match collect_pair out with
    | .value v =>
      match result with
      | some (mn, mx) =>
        match compare_values runOp mn v .no with
        | .ok mn' =>
          match compare_values runOp mx v .yes with
          | .ok mx' => min_maxLoop runOp (some (mn', mx')) rest
          | .error e => .error e
        | .error e => .error e
      | none => min_maxLoop runOp (some (v, v)) rest
    | .error e => .error e
    | .valuePair _ _ => .error unreachableErr

/-- `iterator.min_max` without a key function. -/
def min_maxOp (runOp : BinaryOp → Value → Value → Except RtErr Value)
    (outs : List Output) : Except RtErr Value :=
  min_maxLoop runOp none outs

/-- `iterator.to_list` (the size-hint pre-allocation is a capacity
optimisation with no observable effect on the result). -/
def to_listOp (acc : List Value) : List Output → Except RtErr Value
  | [] => .ok (.list acc)
  | out :: rest =>
    match collect_pair out with
    | .value v => to_listOp (acc ++ [v]) rest
    | .error e => .error e
    | .valuePair _ _ => .error unreachableErr

/-- `iterator.to_tuple`. -/
def to_tupleOp (acc : List Value) : List Output → Except RtErr Value
  | [] => .ok (.tuple acc)
  | out :: rest =>
    match collect_pair out with
    | .value v => to_tupleOp (acc ++ [v]) rest
    | .error e => .error e
    | .valuePair _ _ => .error unreachableErr

/-- `DataMap::insert`: replaces the value of an existing equal key,
otherwise appends the entry. -/
def mapInsert : List (Value × Value) → Value → Value → List (Value × Value)
  | [], k, v => [(k, v)]
  | (k', v') :: rest, k, v =>
    if Value.beq k' k then (k', v) :: rest else (k', v') :: mapInsert rest k v

/-- The key/value entry `iterator.to_map` extracts from one output:
a `ValuePair` keeps its components, a 2-tuple value is split, and any
other value becomes a key mapped to `Null`.  (The error case is never
consulted by `to_mapOp`.) -/
def mapEntry : Output → Value × Value
  | .valuePair key value => (key, value)
  | .value (.tuple [k, v]) => (k, v)
  | .value value => (value, .null)
  | .error _ => (.null, .null)

/-- `iterator.to_map`: `tryKey` models `ValueKey::try_from`, which
fails on unhashable keys. -/
def to_mapOp (tryKey : Value → Except RtErr Value)
    (acc : List (Value × Value)) : List Output → Except RtErr Value
  | [] => .ok (.list (acc.map (fun p => .tuple [p.1, p.2])))
  | .error e :: _ => .error e
  | out :: rest =>
    match tryKey (mapEntry out).1 with
    | .ok key => to_mapOp tryKey (mapInsert acc key (mapEntry out).2) rest
    | .error e => .error e

/-- `iterator.to_string`: string outputs are appended directly, other
values through the display seam (`value.display(&mut display_context)`),
which can fail. -/
def to_stringOp (display : Value → Except RtErr String) (acc : String) :
    List Output → Except RtErr Value
  | [] => .ok (.str acc)
  | out :: rest =>
    match collect_pair out with
    | .value (.str s) => to_stringOp display (acc ++ s) rest
    | .value v =>
      match display v with
      | .ok s => to_stringOp display (acc ++ s) rest
      | .error e => .error e
    | .error e => .error e
    | .valuePair _ _ => .error unreachableErr

/-! ## Lazy adaptors and `make_copy` (claims C1, C6)

`ValueIterator` values are modelled as trees: a `base` node stands for
an underlying iterator owning its remaining outputs (ranges, lists, …),
and the adaptors from `src/runtime/src/core/iterator/adaptors.rs` are
the inner nodes.  The `Option<ValueIterator>` field of `Chain` is
rendered by two constructors: `chain a b` is the state with
`iter_a == Some(a)`, and `chainDone b` the state with `iter_a == None`.
`Each`'s captured callable is carried as a function (cloning it and
spawning a shared VM leaves its behaviour unchanged). -/

inductive MIter where
  | base (outs : List Output)
  | chain (iter_a : MIter) (iter_b : MIter)
  | chainDone (iter_b : MIter)
  | each (iter : MIter) (function : Value → Except RtErr Value)

/-- `next` on the adaptor tree, following the `Iterator::next`
implementations in `adaptors.rs`: `Chain` drains `iter_a`, then flips
`iter_a` to `None` and drains `iter_b`; `Each` collapses pairs with
`collect_pair`, runs the captured function on plain values and wraps
script failures as `Output::Error` with the "iterator.each" prefix. -/
def nextIter : MIter → Option (Output × MIter)
  | .base [] => none
  | .base (o :: rest) => some (o, .base rest)
  | .chain a b =>
    match nextIter a with
    | some (o, a') => some (o, .chain a' b)
    | none =>
      match nextIter b with
      | some (o, b') => some (o, .chainDone b')
      | none => none
  | .chainDone b =>
    match nextIter b with
    | some (o, b') => some (o, .chainDone b')
    | none => none
  | .each it f =>
    match nextIter it with
    | some (o, it') =>
      let o' :=
        match collect_pair o with
        | .value v =>
          match f v with
          | .ok result => Output.value result
          | .error e => Output.error ( RtErr.prefixed e "iterator.each")
        | other => other
      some (o', .each it' f)
    | none => none

/-- `make_copy` on the adaptor tree: `Chain::make_copy` copies
`iter_a` through the `Option` (preserving `None`) and copies `iter_b`;
`Each::make_copy` copies the sub-iterator and keeps the captured
function; a `base` iterator's copy owns the same remaining outputs. -/
def makeCopy : MIter → MIter
  | .base outs => .base outs
  | .chain a b => .chain (makeCopy a) (makeCopy b)
  | .chainDone b => .chainDone (makeCopy b)
  | .each it f => .each (makeCopy it) f

/-- The first `fuel` outputs yielded by an iterator. -/
def outsF : Nat → MIter → List Output
  | 0, _ => []
  | fuel + 1, it =>
    match nextIter it with
    | some (o, it') => o :: outsF fuel it'
    | none => []

/-- Advance a pair of independent iterators under an arbitrary
interleaving schedule (`true` advances the first, `false` the second);
collect the outputs each side yields.  An exhausted side yields
nothing. -/
def runSched : List Bool → MIter × MIter → List Output × List Output
  | [], _ => ([], [])
  | side :: sched, (x, y) =>
    if side then
      match nextIter x with
      | some (o, x') =>
        let r := runSched sched (x', y)
        (o :: r.1, r.2)
      | none => runSched sched (x, y)
    else
      match nextIter y with
      | some (o, y') =>
        let r := runSched sched (x, y')
        (r.1, o :: r.2)
      | none => runSched sched (x, y)

/-! ## The iterator store and `iterator.next` (claim C8)

`ValueIterator` handles are reference-counted shared state in the
source: cloning a handle shares the underlying iterator.  The model
makes the sharing explicit with a store of iterator states indexed by
handle; `Value.iterator h` refers to slot `h`. -/

/-- The store of underlying iterator states (each the list of its
remaining outputs). -/
abbrev Store := List (List Output)

/-- Advance the iterator in slot `h`: pop its next output.  A missing
slot or an exhausted iterator yields `none` and leaves the store
unchanged. -/
def storeNext (store : Store) (h : Nat) : Option Output × Store :=
  match store[h]? with
  | some (o :: rest) => (some o, store.set h rest)
  | some [] => (none, store)
  | none => (none, store)

/-- The outputs an iterable produces when iterated: list and tuple
elements in order; a range counts up from `lo` to `hi - 1`. -/
def iterableOutputs : Value → List Output
  | .list vs => vs.map .value
  | .tuple vs => vs.map .value
  | .range lo hi => (List.range (hi - lo).toNat).map (fun i => .value (.int (lo + i)))
  | _ => []

/-- Modelled from the spec: the VM seam
`make_iterator(value) -> IteratorHandle | Error` is not under `src/`.
Per the spec's glossary, existing iterators are themselves iterable —
they yield their own (shared) handle — while other iterables get a
fresh iterator built over their elements, allocated at the end of the
store. -/
def make_iterator (store : Store) (v : Value) : Except RtErr (Nat × Store) :=
  match v with
  | .iterator h => .ok (h, store)
  | .list vs => .ok (store.length, store ++ [iterableOutputs (.list vs)])
  | .tuple vs => .ok (store.length, store ++ [iterableOutputs (.tuple vs)])
  | .range lo hi => .ok (store.length, store ++ [iterableOutputs (.range lo hi)])
  | _ => .error ⟨[], "expected iterable"⟩

/-- `iterator.next` from `core_lib/iterator.rs`: with an `Iterator`
instance the handle is cloned — sharing the underlying state — and
advanced; with any other iterable (instance or first argument) a fresh
iterator is built by `make_iterator` and advanced; the drawn output
goes through `iter_output_to_result`. -/
def nextOp (store : Store) (instance? : Option Value) (args : List Value) :
    Except RtErr (Value × Store) :=
  match instance?, args with
  | some (.iterator h), [] =>
    let r := storeNext store h
    match iter_output_to_result r.1 with
    | .ok v => .ok (v, r.2)
    | .error e => .error e
  | some iterable, [] =>
    if iterable.is_iterable then
      match make_iterator store iterable with
      | .ok (h, store') =>
        let r := storeNext store' h
        match iter_output_to_result r.1 with
        | .ok v => .ok (v, r.2)
        | .error e => .error e
      | .error e => .error e
    else .error ⟨[], "expected an iterable"⟩
  | none, [iterable] =>
    if iterable.is_iterable then
      match make_iterator store iterable with
      | .ok (h, store') =>
        let r := storeNext store' h
        match iter_output_to_result r.1 with
        | .ok v => .ok (v, r.2)
        | .error e => .error e
      | .error e => .error e
    else .error ⟨[], "expected an iterable"⟩
  | _, _ => .error ⟨[], "expected an iterable"⟩

/-! ## `iterator.intersperse` dispatch (claim C9) -/

/-- The iterator built by `iterator.intersperse`: either
`IntersperseWith` holding the separator function, or `Intersperse`
holding the literal separator value.  The adaptor's sub-iterator is the
iterable the module call received. -/
inductive IntersperseIter where
  | intersperseWith (iterable : Value) (separator_fn : Value)
  | intersperse (iterable : Value) (separator : Value)
deriving Repr

/-- The dispatch of `iterator.intersperse` from `core_lib/iterator.rs`:
a callable second argument selects `IntersperseWith` (the callable is
invoked per separator), anything else is used as a literal separator. -/
def intersperseOp (iterable : Value) (args : List Value) :
    Except RtErr IntersperseIter :=
  match args with
  | [separator] =>
    if separator.is_callable then
      .ok (.intersperseWith iterable separator)
    else
      .ok (.intersperse iterable separator)
  | _ => .error ⟨[], "expected an iterable and a separator"⟩

/-! ## Parser frames and single-pass scope analysis (claims C3, C4)

An embedding of `src/parser/src/parser.rs` restricted to the token
fragment the claims exercise: identifiers, `=` assignment and
`|args| body` functions.  The lexer is external to the core, so tokens
arrive pre-lexed with identifiers already interned to constant indices
(`Token::Id` plus the constant pool's `add_string`), and the whitespace
tokens skipped by `skip_whitespace_and_peek` are elided.  `HashSet`s
are modelled as duplicate-free lists in insertion order, the transient
`HashMap<ConstantIndex, usize>` as an association list. -/

namespace Parse

/-- The token fragment: `|` (`Token::Function`), `=` (`Token::Assign`)
and interned identifiers (`Token::Id`). -/
inductive Tok where
  | function
  | assign
  | id (idx : Nat)
deriving DecidableEq, Repr

/-- Insertion into a `HashSet` modelled as a duplicate-free list. -/
def setInsert (s : List Nat) (x : Nat) : List Nat :=
  if x ∈ s then s else s ++ [x]

/-- `Frame` from `parser.rs`: one lexical scope's bookkeeping. -/
structure Frame where
  top_level : Bool := false
  contains_yield : Bool := false
  ids_assigned_in_scope : List Nat := []
  accessed_non_locals : List Nat := []
  expression_id_accesses : List (Nat × Nat) := []
deriving Repr

/-- `Frame::local_count`:
`ids_assigned_in_scope.difference(&accessed_non_locals).count()`. -/
def Frame.local_count (f : Frame) : Nat :=
  (f.ids_assigned_in_scope.filter
    (fun x => decide (x ∉ f.accessed_non_locals))).length

/-- `Frame::increment_expression_access_for_id`:
`*entry(id).or_insert(0) += 1`. -/
def incAccess : List (Nat × Nat) → Nat → List (Nat × Nat)
  | [], id => [(id, 1)]
  | (k, c) :: rest, id =>
    if k = id then (k, c + 1) :: rest else (k, c) :: incAccess rest id

/-- `Frame::decrement_expression_access_for_id`: `none` (an internal
error in the source) when the id has no entry. -/
def decAccess : List (Nat × Nat) → Nat → Option (List (Nat × Nat))
  | [], _ => none
  | (k, c) :: rest, id =>
    if k = id then some ((k, c - 1) :: rest)
    else (decAccess rest id).map (fun rest' => (k, c) :: rest')

/-- `Frame::finish_expressions`: ids whose transient count is still
positive and which were not assigned in this scope become accessed
non-locals; the transient map is cleared. -/
def Frame.finish_expressions (f : Frame) : Frame :=
  { f with
    accessed_non_locals :=
      f.expression_id_accesses.foldl
        (fun acc p =>
          if 0 < p.2 ∧ p.1 ∉ f.ids_assigned_in_scope then setInsert acc p.1
          else acc)
        f.accessed_non_locals,
    expression_id_accesses := [] }

/-- `Frame::add_nested_accessed_non_locals`: each non-local of a popped
nested frame re-increments this frame's transient counter. -/
def Frame.add_nested_accessed_non_locals (f : Frame) (nested : Frame) : Frame :=
  { f with
    expression_id_accesses :=
      nested.accessed_non_locals.foldl incAccess f.expression_id_accesses }

/-- What the model records of a pushed `Node::Function`: the argument
list, `local_count` and `accessed_non_locals` stored in the node, plus
(as a ghost field for the claims) the popped frame's
`ids_assigned_in_scope`. -/
structure FnInfo where
  args : List Nat
  local_count : Nat
  accessed_non_locals : List Nat
  ids_assigned_in_scope : List Nat
deriving Repr

/-- Parser state: remaining tokens, the frame stack (head innermost)
and the `Function` nodes pushed so far. -/
structure PState where
  tokens : List Tok
  frames : List Frame
  fns : List FnInfo
deriving Repr

/-- The AST nodes the fragment produces (only the shape matters for
`parse_assign_expression`'s target check). -/
inductive PNode where
  | idNode (idx : Nat)
  | fnNode
  | assignNode
deriving DecidableEq, Repr

/-- Parser failures: `SyntaxError`, `InternalError`, the missing-scope
internal error, and exhaustion of the recursion fuel. -/
inductive PErr where
  | syntaxErr
  | internalErr
  | missingScope
  | outOfFuel
deriving DecidableEq, Repr

/-- `Parser::frame_mut` plus an update: apply `f` to the innermost
frame, failing with the missing-scope internal error on an empty
stack. -/
def withFrame (st : PState) (f : Frame → Frame) : Except PErr PState :=
  match st.frames with
  | [] => .error .missingScope
  | fr :: rest => .ok { st with frames := f fr :: rest }

/-- `Parser::parse_id`: consume an identifier token if one is next
(the fragment has no wildcard token). -/
def parse_id (st : PState) : Option (Nat × PState) :=
  match st.tokens with
  | .id idx :: rest => some (idx, { st with tokens := rest })
  | _ => none

/-- `Parser::parse_id_expression` restricted to the fragment: consume
an id, increment its transient access count, and produce an `Id` node
(the call/lookup postfix branches need tokens outside the fragment). -/
def parse_id_expression (st : PState) : Except PErr (Option (PNode × PState)) :=
  match parse_id st with
  | some (idx, st1) =>
    match withFrame st1 (fun fr =>
        { fr with expression_id_accesses := incAccess fr.expression_id_accesses idx }) with
    | .ok st2 => .ok (some (.idNode idx, st2))
    | .error e => .error e
  | none => .ok none

/-- The argument loop of `parse_function`: ids collected until a
non-id token (`parse_id` only consumes tokens here, so the loop is a
function of the token stream). -/
def parseFnArgs : List Tok → List Nat × List Tok
  | .id idx :: rest =>
    let r := parseFnArgs rest
    (idx :: r.1, r.2)
  | toks => ([], toks)

/-- `parse_assign_expression`'s target loop: an `Id` target has its
transient access decremented (an absent entry is an internal error)
and is recorded in `ids_assigned_in_scope`; the fragment's other nodes
are invalid targets (`ExpectedAssignmentTarget`). -/
def processTargets (st : PState) : List PNode → Except PErr PState
  | [] => .ok st
  | .idNode idx :: rest =>
    match st.frames with
    | [] => .error .missingScope
    | fr :: frs =>
      match decAccess fr.expression_id_accesses idx with
      | none => .error .internalErr
      | some accesses =>
        let fr' := { fr with
          expression_id_accesses := accesses,
          ids_assigned_in_scope := setInsert fr.ids_assigned_in_scope idx }
        processTargets { st with frames := fr' :: frs } rest
  | _ :: _ => .error .syntaxErr

mutual

/-- `Parser::parse_function` on the fragment: `|` already peeked;
consume it, collect argument ids, require the closing `|`, push a
fresh frame whose `ids_assigned_in_scope` is extended with the args,
parse the body line, pop the frame, propagate its non-locals to the
parent via `add_nested_accessed_non_locals`, and record the
`Function` node with the popped frame's `local_count` and
`accessed_non_locals`. -/
def parse_function (fuel : Nat) (st : PState) : Except PErr (PNode × PState) :=
  match fuel with
  | 0 => .error .outOfFuel
  | fuel + 1 =>
    match st.tokens with
    | .function :: rest =>
      match parseFnArgs rest with
      | (args, afterArgs) =>
        match afterArgs with
        | .function :: rest2 =>
          match parse_line fuel
              { st with
                tokens := rest2,
                frames :=
                  { ids_assigned_in_scope :=
                      args.foldl setInsert ([] : List Nat) } :: st.frames } with
          | .ok (some (_, st3)) =>
            match st3.frames with
            | child :: parents =>
              match withFrame { st3 with frames := parents }
                  (fun fr => Frame.add_nested_accessed_non_locals fr child) with
              | .ok st4 =>
                .ok (.fnNode,
                  { st4 with
                    fns := st4.fns ++
                      [{ args := args,
                         local_count := child.local_count,
                         accessed_non_locals := child.accessed_non_locals,
                         ids_assigned_in_scope := child.ids_assigned_in_scope }] })
              | .error e => .error e
            | [] => .error .missingScope
          | .ok none => .error .syntaxErr
          | .error e => .error e
        | _ => .error .syntaxErr
    | _ => .error .internalErr

/-- `Parser::parse_line` on the fragment (no loops or debug forms in
the token set): a primary expression followed by
`finish_expressions` on the current frame. -/
def parse_line (fuel : Nat) (st : PState) : Except PErr (Option (PNode × PState)) :=
  match fuel with
  | 0 => .error .outOfFuel
  | fuel + 1 =>
    match parse_primary_expressions fuel st with
    | .ok (some (n, st1)) =>
      match withFrame st1 Frame.finish_expressions with
      | .ok st2 => .ok (some (n, st2))
      | .error e => .error e
    | .ok none => .ok none
    | .error e => .error e

/-- `Parser::parse_primary_expressions` on the fragment: a single
primary expression (the fragment has no separator token). -/
def parse_primary_expressions (fuel : Nat) (st : PState) :
    Except PErr (Option (PNode × PState)) :=
  match fuel with
  | 0 => .error .outOfFuel
  | fuel + 1 => parse_expression_start fuel st

/-- `Parser::parse_expression_start` on the fragment: an id expression
or a term, continued by `parse_expression_continued`. -/
def parse_expression_start (fuel : Nat) (st : PState) :
    Except PErr (Option (PNode × PState)) :=
  match fuel with
  | 0 => .error .outOfFuel
  | fuel + 1 =>
    match parse_id_expression st with
    | .ok (some (n, st1)) => parse_expression_continued fuel n st1
    | .ok none =>
      match parse_term fuel st with
      | .ok (some (n, st1)) => parse_expression_continued fuel n st1
      | .ok none => .ok none
      | .error e => .error e
    | .error e => .error e

/-- `Parser::parse_term` on the fragment: only a function literal
starts a term. -/
def parse_term (fuel : Nat) (st : PState) :
    Except PErr (Option (PNode × PState)) :=
  match fuel with
  | 0 => .error .outOfFuel
  | fuel + 1 =>
    match st.tokens with
    | .function :: _ =>
      match parse_function fuel st with
      | .ok (n, st1) => .ok (some (n, st1))
      | .error e => .error e
    | _ => .ok none

/-- `Parser::parse_expression_continued` on the fragment: an `=` token
dispatches to `parse_assign_expression`; otherwise the expression is
complete. -/
def parse_expression_continued (fuel : Nat) (lhs : PNode) (st : PState) :
    Except PErr (Option (PNode × PState)) :=
  match fuel with
  | 0 => .error .outOfFuel
  | fuel + 1 =>
    match st.tokens with
    | .assign :: _ => parse_assign_expression fuel [lhs] st
    | _ => .ok (some (lhs, st))

/-- `Parser::parse_assign_expression` for op `=`: consume the token,
process the targets (decrement + record assignment for each `Id`),
then parse the right-hand side. -/
def parse_assign_expression (fuel : Nat) (lhs : List PNode) (st : PState) :
    Except PErr (Option (PNode × PState)) :=
  match fuel with
  | 0 => .error .outOfFuel
  | fuel + 1 =>
    match processTargets { st with tokens := st.tokens.tail } lhs with
    | .ok st2 =>
      match parse_primary_expressions fuel st2 with
      | .ok (some (_, st3)) => .ok (some (.assignNode, st3))
      | .ok none => .error .syntaxErr
      | .error e => .error e
    | .error e => .error e

end

/-- The statement loop of `parse_main_block`: parse lines until the
token stream is exhausted. -/
def mainLoop (fuel : Nat) (st : PState) : Except PErr PState :=
  match fuel with
  | 0 => .error .outOfFuel
  | fuel + 1 =>
    match st.tokens with
    | [] => .ok st
    | _ :: _ =>
      match parse_line fuel st with
      | .ok (some (_, st1)) => mainLoop fuel st1
      | .ok none => .error .syntaxErr
      | .error e => .error e

/-- What `parse` returns in the model: the `Function` nodes, and the
`MainBlock`'s `local_count` together with the main frame's final
bookkeeping. -/
structure ParseResult where
  fns : List FnInfo
  main_local_count : Nat
  main_ids_assigned_in_scope : List Nat
  main_accessed_non_locals : List Nat
deriving Repr

/-- `Parser::parse` / `parse_main_block` on the fragment: run the
statement loop in a fresh top-level frame and record the main block's
`local_count` from that frame. -/
def parse (fuel : Nat) (tokens : List Tok) : Except PErr ParseResult :=
  match mainLoop fuel
      { tokens, frames := [{ top_level := true }], fns := [] } with
  | .ok st =>
    match st.frames with
    | [mainFrame] =>
      .ok { fns := st.fns,
            main_local_count := mainFrame.local_count,
            main_ids_assigned_in_scope := mainFrame.ids_assigned_in_scope,
            main_accessed_non_locals := mainFrame.accessed_non_locals }
    | _ => .error .missingScope
  | .error e => .error e

end Parse

/-! ## Auxiliary definitions for the theorems -/

/-- An error-free iterator output: a value or a key/value pair.  Lists
of these describe the outputs an eager operation consumes before
hitting an error. -/
inductive OkOut where
  | v (x : Value)
  | pair (a b : Value)

/-- The output an `OkOut` stands for. -/
def OkOut.out : OkOut → Output
  | .v x => .value x
  | .pair a b => .valuePair a b

/-- The `CallArgs` the dispatching eager operations build for an
output: `Single` for a value, `AsTuple` of the two components for a
pair. -/
def OkOut.args : OkOut → CallArgs
  | .v x => .single x
  | .pair a b => .asTuple [a, b]

/-- The value seen after `collect_pair`. -/
def OkOut.collected : OkOut → Value
  | .v x => x
  | .pair a b => .tuple [a, b]

/-- A concrete script `<` operator under which distinct values can
compare equal: values are `(key, tag)` tuples ordered by key alone, so
two values with equal keys and different tags tie (`<` is false both
ways). -/
def ltByKey : BinaryOp → Value → Value → Except RtErr Value
  | _, .tuple (.int a :: _), .tuple (.int b :: _) => .ok (.bool (a < b))
  | _, _, _ => .error ⟨[], "undefined order"⟩

/-- `(1, 0)`: ties with `tag1` under `ltByKey` and appears first. -/
def tag0 : Value := .tuple [.int 1, .int 0]

/-- `(1, 1)`: ties with `tag0` under `ltByKey` and appears second. -/
def tag1 : Value := .tuple [.int 1, .int 1]

/-- Tokens of the source `|| a = a` (with `a` interned at constant
index 0). -/
def toksAA : List Parse.Tok :=
  [.function, .function, .id 0, .assign, .id 0]

/-- Tokens of the source `|| b = a` (with `b` interned at constant
index 0 and `a` at 1): the function assigns `b` locally and reads the
non-local `a`. -/
def toksBA : List Parse.Tok :=
  [.function, .function, .id 0, .assign, .id 1]

/-- The `Function` node the parser records for `|| b = a`: one local
assignment (`b`), one accessed non-local (`a`). -/
def fnBA : Parse.FnInfo :=
  { args := [], local_count := 1,
    accessed_non_locals := [1], ids_assigned_in_scope := [0] }

/-- The `Function` node the parser records for `|| a = a`: because
`finish_expressions` skips ids already in `ids_assigned_in_scope`, the
read of `a` before its assignment is not recorded as a non-local. -/
def fnAA : Parse.FnInfo :=
  { args := [], local_count := 1,
    accessed_non_locals := [], ids_assigned_in_scope := [0] }

/-- A function node is well-counted when its recorded `local_count` is
the size of the set difference
`ids_assigned_in_scope ∖ accessed_non_locals` (the sets are
duplicate-free lists, so the filter length is the cardinality). -/
def Parse.FnInfo.wellCounted (fn : Parse.FnInfo) : Prop :=
  fn.local_count =
    (fn.ids_assigned_in_scope.filter
      (fun x => decide (x ∉ fn.accessed_non_locals))).length

/-- All function nodes recorded so far are well-counted. -/
def Parse.GoodFns (st : Parse.PState) : Prop :=
  ∀ fn ∈ st.fns, fn.wellCounted

/-- An output sequence whose `i`-th output (for `i = pre.length`) is
the first `Error`: an error-free prefix, the error, then arbitrary
further outputs. -/
def withErr (pre : List OkOut) (e : RtErr) (post : List Output) : List Output :=
  pre.map OkOut.out ++ .error e :: post

/-- The string one non-error output contributes in `to_stringOp`:
string values directly, anything else through the display seam. -/
def toStrStep (display : Value → Except RtErr String) : Value → Except RtErr String
  | .str s => .ok s
  | v => display v

/-- The concrete error-free prefix used to witness the
error-propagation theorem. -/
def c7pre : List OkOut := [.v (.int 1), .pair (.int 2) (.int 3)]

/-- The concrete error that the witness iterator yields after its
prefix. -/
def c7err : RtErr := ⟨[], "failure in the underlying iterator"⟩

/-- Concrete outputs past the error position: the theorem shows they
are never pulled. -/
def c7post : List Output := [.value .null]

/-- The uniform calling convention (claim C10): an argument package
passed to a user callback is either `Single v` for a plain value output
of the iterator, or `AsTuple [k, v]` for a `ValuePair(k, v)` output —
never two separate arguments. -/
def TraceOk (outs : List Output) (args : CallArgs) : Prop :=
  (∃ v, args = .single v ∧ Output.value v ∈ outs) ∨
  (∃ a b, args = .asTuple [a, b] ∧ Output.valuePair a b ∈ outs)

/-- A concrete iterator store for the `iterator.next` witness: slot 0
holds two remaining values, slot 1 holds a key/value pair, slot 2 is
exhausted. -/
def c8store : Store :=
  [[.value (.int 7), .value (.int 8)],
   [.valuePair (.str "k") (.int 9)],
   []]

/-! # Theorems -/

/-! ## Claim C1: adaptor copies are independent -/

/-- `make_copy` commutes with `next`: the copy's next step yields the
same output and the copy of the advanced original. -/
theorem nextIter_makeCopy (it : MIter) :
    nextIter (makeCopy it) = (nextIter it).map (fun p => (p.1, makeCopy p.2)) := by
  induction it with
  | base outs => cases outs <;> simp [nextIter, makeCopy]
  | chain a b iha ihb =>
    simp only [makeCopy, nextIter, iha, ihb]
    cases nextIter a with
    | some p => simp [makeCopy]
    | none =>
      cases nextIter b with
      | some p => simp [makeCopy]
      | none => simp
  | chainDone b ihb =>
    simp only [makeCopy, nextIter, ihb]
    cases nextIter b with
    | some p => simp [makeCopy]
    | none => simp
  | each it f ih =>
    simp only [makeCopy, nextIter, ih]
    cases nextIter it with
    | some p => simp [makeCopy]
    | none => simp

/-- The copy yields exactly the original's output sequence. -/
theorem outsF_makeCopy (fuel : Nat) (it : MIter) :
    outsF fuel (makeCopy it) = outsF fuel it := by
  induction fuel generalizing it with
  | zero => rfl
  | succ fuel ih =>
    simp only [outsF, nextIter_makeCopy]
    cases nextIter it with
    | some p => simp [ih]
    | none => simp

/-- An exhausted iterator yields nothing for any fuel. -/
theorem outsF_of_none {it : MIter} (h : nextIter it = none) (fuel : Nat) :
    outsF fuel it = [] := by
  cases fuel <;> simp [outsF, h]

/-- Interleaved advancing of two iterators: each side yields its own
output sequence, regardless of the schedule — advancing one side never
changes what the other yields. -/
theorem runSched_spec (sched : List Bool) (x y : MIter) :
    runSched sched (x, y) =
      (outsF (sched.count true) x, outsF (sched.count false) y) := by
  induction sched generalizing x y with
  | nil => simp [runSched, outsF]
  | cons side rest ih =>
    cases side with
    | true =>
      simp only [runSched, if_true]
      cases h : nextIter x with
      | some p =>
        simp [ih, outsF, h, List.count_cons]
      | none =>
        simp [ih, outsF_of_none h, List.count_cons]
    | false =>
      simp only [runSched, if_false]
      cases h : nextIter y with
      | some p =>
        simp [ih, outsF, h, List.count_cons]
      | none =>
        simp [ih, outsF_of_none h, List.count_cons]

/-- C1.  For the built-in adaptors (`Chain`, `Each`), `make_copy`
produces an independent iterator: under any interleaving of advances
the copy and the original yield positionally identical sequences, and
advances of one never change what the other yields (the pair state is
advanced componentwise).  For a `Chain` whose first sub-iterator is
already exhausted (`iter_a == None`, the `chainDone` state) the copy
keeps that state, so it yields only the remainder of the second
sub-iterator; for `Each` the copy re-runs the same captured function
over a deep copy of the sub-iterator. -/
theorem make_copy_independent :
    (∀ it fuel, outsF fuel (makeCopy it) = outsF fuel it) ∧
    (∀ a sched, runSched sched (a, makeCopy a) =
        (outsF (sched.count true) a, outsF (sched.count false) a)) ∧
    (∀ b, makeCopy (MIter.chainDone b) = .chainDone (makeCopy b)) ∧
    (∀ b fuel, outsF fuel (MIter.chainDone b) = outsF fuel b) ∧
    (∀ it f, makeCopy (MIter.each it f) = .each (makeCopy it) f) := by
  have hdone : ∀ b fuel, outsF fuel (MIter.chainDone b) = outsF fuel b := by
    intro b fuel
    induction fuel generalizing b with
    | zero => rfl
    | succ fuel ih =>
      simp only [outsF, nextIter]
      cases nextIter b with
      | some p => simp [ih]
      | none => simp
  refine ⟨fun it fuel => outsF_makeCopy fuel it, ?_, fun b => rfl, hdone,
    fun it f => rfl⟩
  intro a sched
  rw [runSched_spec, outsF_makeCopy]

/-! ## Claim C2: tie-breaking of `iterator.min` / `iterator.max` -/

/-- C2 counterexample.  Over the two-element iterator
`(tag0, tag1)` — distinct values that compare equal under the script's
`<` — `iterator.min` returns the LATER element `tag1` (the claim says
the earlier wins), and `iterator.max` returns the EARLIER element
`tag0` (the claim says the later wins). -/
theorem min_max_tie_counterexample :
    minOp ltByKey [.value tag0, .value tag1] = .ok tag1 ∧
    maxOp ltByKey [.value tag0, .value tag1] = .ok tag0 ∧
    tag0 ≠ tag1 := by
  refine ⟨rfl, rfl, ?_⟩
  simp [tag0, tag1]

/-- C2 amended.  When the accumulated candidate `a` and a later
element `b` compare equal under the script's `<` (false both ways),
`compare_values` — and with it `iterator.min` — keeps the LATER
element, while `iterator.max` keeps the EARLIER one: the opposite of
the claim's tie-breaking. -/
theorem min_max_tie_amended (runOp : BinaryOp → Value → Value → Except RtErr Value)
    (a b : Value)
    (hab : runOp .less a b = .ok (.bool false))
    (_hba : runOp .less b a = .ok (.bool false)) :
    compare_values runOp a b .no = .ok b ∧
    compare_values runOp a b .yes = .ok a ∧
    minOp runOp [.value a, .value b] = .ok b ∧
    maxOp runOp [.value a, .value b] = .ok a := by
  refine ⟨?_, ?_, ?_, ?_⟩ <;>
    simp [compare_values, minOp, maxOp, run_iterator_comparison,
      run_iterator_comparison_loop, collect_pair, hab]

/-- Witness for the amended C2 theorem at the concrete tied pair. -/
theorem min_max_tie_amended_witness :
    compare_values ltByKey tag0 tag1 .no = .ok tag1 ∧
    compare_values ltByKey tag0 tag1 .yes = .ok tag0 ∧
    minOp ltByKey [.value tag0, .value tag1] = .ok tag1 ∧
    maxOp ltByKey [.value tag0, .value tag1] = .ok tag0 :=
  min_max_tie_amended ltByKey tag0 tag1 rfl rfl

/-! ## Claim C5: `fold` with `+` refines `sum` -/

/-- C5.  The generic `iterator.fold` driven by a callback that adds its
two arguments through the VM computes exactly the specialised
`fold_with_operator` reduction of `iterator.sum` over `BinaryOp::Add`,
for every initial value and output sequence (both sides also agree on
error propagation, so the claim's definedness proviso is subsumed). -/
theorem fold_add_eq_sum (runOp : BinaryOp → Value → Value → Except RtErr Value)
    (init : Value) (outs : List Output) :
    foldOp (fun acc v => runOp .add acc v) init outs = sumOp runOp init outs := by
  unfold sumOp
  induction outs generalizing init with
  | nil => rfl
  | cons out rest ih =>
    cases hcp : collect_pair out with
    | value v =>
      cases hr : runOp .add init v with
      | ok acc' => simp [foldOp, fold_with_operator, hcp, hr, ih]
      | error e => simp [foldOp, fold_with_operator, hcp, hr]
    | valuePair a b => simp [foldOp, fold_with_operator, hcp]
    | error e => simp [foldOp, fold_with_operator, hcp]

/-! ## Claim C6: `Chain::size_hint` -/

/-- C6 counterexample.  When the sub-iterators' upper bounds are
`usize::MAX` and `1`, the code's `checked_add` yields `None` — not the
saturating sum `Some(usize::MAX)` the claim states. -/
theorem chain_size_hint_counterexample :
    chainSizeHint (some (0, some (USIZE - 1))) (0, some 1) = (0, none) ∧
    (chainSizeHint (some (0, some (USIZE - 1))) (0, some 1)).2 ≠
      some (saturating_add (USIZE - 1) 1) := by
  constructor
  · rfl
  · intro h
    rw [show (chainSizeHint (some (0, some (USIZE - 1))) (0, some 1)).2 = none
        from rfl] at h
    cases h

/-- C6 amended.  While `iter_a` is not exhausted, `Chain::size_hint`'s
lower bound is the saturating sum of the lower bounds, while the upper
bound is the CHECKED sum of the upper bounds: when both are present it
equals the saturating sum exactly as long as their sum does not
overflow `usize`, it is `None` on overflow, and it is `None` whenever
either sub-bound is `None`. -/
theorem chain_size_hint_amended (la lb ua ub : Nat) :
    (ua + ub < USIZE →
      chainSizeHint (some (la, some ua)) (lb, some ub) =
        (saturating_add la lb, some (saturating_add ua ub))) ∧
    (USIZE ≤ ua + ub →
      chainSizeHint (some (la, some ua)) (lb, some ub) =
        (saturating_add la lb, none)) ∧
    chainSizeHint (some (la, some ua)) (lb, none) = (saturating_add la lb, none) ∧
    chainSizeHint (some (la, none)) (lb, some ub) = (saturating_add la lb, none) := by
  refine ⟨?_, ?_, rfl, rfl⟩
  · intro h
    have hle : ua + ub ≤ USIZE - 1 := by
      unfold USIZE at h ⊢
      omega
    simp [chainSizeHint, checked_add, saturating_add, if_pos h,
      Nat.min_eq_left hle]
  · intro h
    have hlt : ¬ (ua + ub < USIZE) := not_lt.mpr h
    simp [chainSizeHint, checked_add, if_neg hlt]

/-- Witness for the amended C6 theorem: a non-overflowing and an
overflowing upper-bound sum. -/
theorem chain_size_hint_amended_witness :
    chainSizeHint (some (1, some 3)) (2, some 4) =
      (saturating_add 1 2, some (saturating_add 3 4)) ∧
    chainSizeHint (some (1, some (USIZE - 1))) (2, some 1) =
      (saturating_add 1 2, none) :=
  ⟨(chain_size_hint_amended 1 2 3 4).1 (by decide),
   (chain_size_hint_amended 1 2 (USIZE - 1) 1).2.1 (by decide)⟩

/-! ## Claim C7: eager operations short-circuit on the first error -/

/-- `collect_pair` turns an error-free output into its collected
value. -/
theorem collect_pair_okOut (o : OkOut) :
    collect_pair o.out = .value o.collected := by
  cases o <;> rfl

/-- `collect_pair` passes an error output through. -/
theorem collect_pair_error (e : RtErr) :
    collect_pair (.error e) = .error e := rfl

/-- `all` short-circuits on the error when the predicate accepted the
whole prefix. -/
theorem allOp_stops_on_error (runPred : CallArgs → Except RtErr Value)
    (pre : List OkOut) (e : RtErr) (post : List Output)
    (h : ∀ o ∈ pre, runPred o.args = .ok (.bool true)) :
    (allOp runPred (withErr pre e post)).1 = .error e := by
  induction pre with
  | nil => simp [withErr, allOp]
  | cons o rest ih =>
    have ho := h o (List.mem_cons_self o rest)
    have hrest := fun o' h' => h o' (List.mem_cons_of_mem _ h')
    cases o with
    | v x =>
      simp only [OkOut.args] at ho
      simp [withErr, allOp, allOp.allStep, OkOut.out, ho]
      simpa [withErr] using ih hrest
    | pair a b =>
      simp only [OkOut.args] at ho
      simp [withErr, allOp, allOp.allStep, OkOut.out, ho]
      simpa [withErr] using ih hrest

/-- `any` short-circuits on the error when the predicate rejected the
whole prefix. -/
theorem anyOp_stops_on_error (runPred : CallArgs → Except RtErr Value)
    (pre : List OkOut) (e : RtErr) (post : List Output)
    (h : ∀ o ∈ pre, runPred o.args = .ok (.bool false)) :
    (anyOp runPred (withErr pre e post)).1 = .error e := by
  induction pre with
  | nil => simp [withErr, anyOp]
  | cons o rest ih =>
    have ho := h o (List.mem_cons_self o rest)
    have hrest := fun o' h' => h o' (List.mem_cons_of_mem _ h')
    cases o with
    | v x =>
      simp only [OkOut.args] at ho
      simp [withErr, anyOp, anyOp.anyStep, OkOut.out, ho]
      simpa [withErr] using ih hrest
    | pair a b =>
      simp only [OkOut.args] at ho
      simp [withErr, anyOp, anyOp.anyStep, OkOut.out, ho]
      simpa [withErr] using ih hrest

/-- `position` short-circuits on the error when the predicate rejected
the whole prefix. -/
theorem positionOp_stops_on_error (runPred : CallArgs → Except RtErr Value)
    (pre : List OkOut) (e : RtErr) (post : List Output)
    (h : ∀ o ∈ pre, runPred o.args = .ok (.bool false)) :
    ∀ i, (positionOp runPred i (withErr pre e post)).1 = .error e := by
  induction pre with
  | nil => intro i; simp [withErr, positionOp]
  | cons o rest ih =>
    intro i
    have ho := h o (List.mem_cons_self o rest)
    have hrest := fun o' h' => h o' (List.mem_cons_of_mem _ h')
    cases o with
    | v x =>
      simp only [OkOut.args] at ho
      simp [withErr, positionOp, positionOp.positionStep, OkOut.out, ho]
      simpa [withErr] using ih hrest (i + 1)
    | pair a b =>
      simp only [OkOut.args] at ho
      simp [withErr, positionOp, positionOp.positionStep, OkOut.out, ho]
      simpa [withErr] using ih hrest (i + 1)

/-- `consume` with a consumer short-circuits on the error when the
consumer succeeded on the whole prefix. -/
theorem consumeWith_stops_on_error (runF : CallArgs → Except RtErr Value)
    (pre : List OkOut) (e : RtErr) (post : List Output)
    (h : ∀ o ∈ pre, ∃ r, runF o.args = .ok r) :
    (consumeWith runF (withErr pre e post)).1 = .error e := by
  induction pre with
  | nil => simp [withErr, consumeWith]
  | cons o rest ih =>
    obtain ⟨r, hr⟩ := h o (List.mem_cons_self o rest)
    have hrest := fun o' h' => h o' (List.mem_cons_of_mem _ h')
    cases o with
    | v x =>
      simp only [OkOut.args] at hr
      simp [withErr, consumeWith, consumeWith.consumeStep, OkOut.out, hr]
      simpa [withErr] using ih hrest
    | pair a b =>
      simp only [OkOut.args] at hr
      simp [withErr, consumeWith, consumeWith.consumeStep, OkOut.out, hr]
      simpa [withErr] using ih hrest

/-- Draining `consume` short-circuits on the error. -/
theorem consumeDrain_stops_on_error (pre : List OkOut) (e : RtErr)
    (post : List Output) :
    consumeDrain (withErr pre e post) = .error e := by
  induction pre with
  | nil => simp [withErr, consumeDrain]
  | cons o rest ih =>
    cases o <;> simpa [withErr, consumeDrain, OkOut.out] using ih

/-- `count` short-circuits on the error. -/
theorem countOp_stops_on_error (pre : List OkOut) (e : RtErr)
    (post : List Output) :
    ∀ n, countOp n (withErr pre e post) = .error e := by
  induction pre with
  | nil => intro n; simp [withErr, countOp]
  | cons o rest ih =>
    intro n
    cases o <;> simpa [withErr, countOp, OkOut.out] using ih (n + 1)

/-- `find` short-circuits on the error when the predicate rejected the
whole prefix. -/
theorem findOp_stops_on_error (runPred : CallArgs → Except RtErr Value)
    (pre : List OkOut) (e : RtErr) (post : List Output)
    (h : ∀ o ∈ pre, runPred (.single o.collected) = .ok (.bool false)) :
    findOp runPred (withErr pre e post) = .error e := by
  induction pre with
  | nil => simp [withErr, findOp, collect_pair_error]
  | cons o rest ih =>
    have ho := h o (List.mem_cons_self o rest)
    have hrest := fun o' h' => h o' (List.mem_cons_of_mem _ h')
    simp [withErr, findOp, collect_pair_okOut, ho]
    simpa [withErr] using ih hrest

/-- `fold` short-circuits on the error when the folding callback
succeeded along the whole prefix. -/
theorem foldOp_stops_on_error (runF : Value → Value → Except RtErr Value)
    (pre : List OkOut) (e : RtErr) (post : List Output) :
    ∀ acc, (∃ r, foldOp runF acc (pre.map OkOut.out) = .ok r) →
      foldOp runF acc (withErr pre e post) = .error e := by
  induction pre with
  | nil => intro acc _; simp [withErr, foldOp, collect_pair_error]
  | cons o rest ih =>
    intro acc hok
    obtain ⟨r, hr⟩ := hok
    rw [List.map_cons] at hr
    simp only [foldOp, collect_pair_okOut] at hr
    cases hstep : runF acc o.collected with
    | ok acc' =>
      rw [hstep] at hr
      simp [withErr, foldOp, collect_pair_okOut, hstep]
      simpa [withErr] using ih acc' ⟨r, hr⟩
    | error e' =>
      rw [hstep] at hr
      cases hr

/-- `last` short-circuits on the error. -/
theorem lastOp_stops_on_error (pre : List OkOut) (e : RtErr)
    (post : List Output) :
    ∀ acc, lastOp acc (withErr pre e post) = .error e := by
  induction pre with
  | nil => intro acc; simp [withErr, lastOp, collect_pair_error]
  | cons o rest ih =>
    intro acc
    simpa [withErr, lastOp, collect_pair_okOut] using ih o.collected

/-- `fold_with_operator` (and with it `sum` and `product`)
short-circuits on the error when the operator succeeded along the
whole prefix. -/
theorem fold_with_operator_stops_on_error
    (runOp : BinaryOp → Value → Value → Except RtErr Value)
    (operator : BinaryOp) (pre : List OkOut) (e : RtErr) (post : List Output) :
    ∀ acc, (∃ r, fold_with_operator runOp acc operator (pre.map OkOut.out) = .ok r) →
      fold_with_operator runOp acc operator (withErr pre e post) = .error e := by
  induction pre with
  | nil => intro acc _; simp [withErr, fold_with_operator, collect_pair_error]
  | cons o rest ih =>
    intro acc hok
    obtain ⟨r, hr⟩ := hok
    rw [List.map_cons] at hr
    simp only [fold_with_operator, collect_pair_okOut] at hr
    cases hstep : runOp operator acc o.collected with
    | ok acc' =>
      rw [hstep] at hr
      simp [withErr, fold_with_operator, collect_pair_okOut, hstep]
      simpa [withErr] using ih acc' ⟨r, hr⟩
    | error e' =>
      rw [hstep] at hr
      cases hr

/-- The `min`/`max` comparison loop short-circuits on the error when
the comparisons succeeded along the whole prefix. -/
theorem comparison_loop_stops_on_error
    (runOp : BinaryOp → Value → Value → Except RtErr Value)
    (invert_result : InvertResult) (pre : List OkOut) (e : RtErr)
    (post : List Output) :
    ∀ acc, (∃ r, run_iterator_comparison_loop runOp invert_result acc
        (pre.map OkOut.out) = .ok r) →
      run_iterator_comparison_loop runOp invert_result acc
        (withErr pre e post) = .error e := by
  induction pre with
  | nil => intro acc _; simp [withErr, run_iterator_comparison_loop, collect_pair_error]
  | cons o rest ih =>
    intro acc hok
    obtain ⟨r, hr⟩ := hok
    rw [List.map_cons] at hr
    cases acc with
    | none =>
      simp only [run_iterator_comparison_loop, collect_pair_okOut] at hr
      simp [withErr, run_iterator_comparison_loop, collect_pair_okOut]
      simpa [withErr] using ih (some o.collected) ⟨r, hr⟩
    | some a =>
      simp only [run_iterator_comparison_loop, collect_pair_okOut] at hr
      cases hstep : compare_values runOp a o.collected invert_result with
      | ok a' =>
        rw [hstep] at hr
        simp only [] at hr
        simp [withErr, run_iterator_comparison_loop, collect_pair_okOut, hstep]
        simpa [withErr] using ih (some a') ⟨r, hr⟩
      | error e' =>
        rw [hstep] at hr
        simp only [] at hr
        cases hr

/-- `run_iterator_comparison` (the body of `min` and `max`)
short-circuits on the error when the comparisons succeeded along the
whole prefix. -/
theorem run_iterator_comparison_stops_on_error
    (runOp : BinaryOp → Value → Value → Except RtErr Value)
    (invert_result : InvertResult) (pre : List OkOut) (e : RtErr)
    (post : List Output)
    (h : ∃ r, run_iterator_comparison runOp invert_result
        (pre.map OkOut.out) = .ok r) :
    run_iterator_comparison runOp invert_result (withErr pre e post) =
      .error e := by
  have hloop : ∃ r, run_iterator_comparison_loop runOp invert_result none
      (pre.map OkOut.out) = .ok r := by
    obtain ⟨r, hr⟩ := h
    unfold run_iterator_comparison at hr
    cases hl : run_iterator_comparison_loop runOp invert_result none
        (pre.map OkOut.out) with
    | ok o => exact ⟨o, rfl⟩
    | error e' => rw [hl] at hr; cases hr
  unfold run_iterator_comparison
  rw [comparison_loop_stops_on_error runOp invert_result pre e post none hloop]

/-- The `min_max` loop short-circuits on the error when the
comparisons succeeded along the whole prefix. -/
theorem min_maxLoop_stops_on_error
    (runOp : BinaryOp → Value → Value → Except RtErr Value)
    (pre : List OkOut) (e : RtErr) (post : List Output) :
    ∀ acc, (∃ r, min_maxLoop runOp acc (pre.map OkOut.out) = .ok r) →
      min_maxLoop runOp acc (withErr pre e post) = .error e := by
  induction pre with
  | nil => intro acc _; simp [withErr, min_maxLoop, collect_pair_error]
  | cons o rest ih =>
    intro acc hok
    obtain ⟨r, hr⟩ := hok
    rw [List.map_cons] at hr
    cases acc with
    | none =>
      simp only [min_maxLoop, collect_pair_okOut] at hr
      simp [withErr, min_maxLoop, collect_pair_okOut]
      simpa [withErr] using ih (some (o.collected, o.collected)) ⟨r, hr⟩
    | some p =>
      obtain ⟨mn, mx⟩ := p
      simp only [min_maxLoop, collect_pair_okOut] at hr
      cases hmn : compare_values runOp mn o.collected .no with
      | ok mn' =>
        rw [hmn] at hr
        simp only [] at hr
        cases hmx : compare_values runOp mx o.collected .yes with
        | ok mx' =>
          rw [hmx] at hr
          simp only [] at hr
          simp [withErr, min_maxLoop, collect_pair_okOut, hmn, hmx]
          simpa [withErr] using ih (some (mn', mx')) ⟨r, hr⟩
        | error e' =>
          rw [hmx] at hr
          simp only [] at hr
          cases hr
      | error e' =>
        rw [hmn] at hr
        simp only [] at hr
        cases hr

/-- `to_list` short-circuits on the error. -/
theorem to_listOp_stops_on_error (pre : List OkOut) (e : RtErr)
    (post : List Output) :
    ∀ acc, to_listOp acc (withErr pre e post) = .error e := by
  induction pre with
  | nil => intro acc; simp [withErr, to_listOp, collect_pair_error]
  | cons o rest ih =>
    intro acc
    simpa [withErr, to_listOp, collect_pair_okOut] using
      ih (acc ++ [o.collected])

/-- `to_tuple` short-circuits on the error. -/
theorem to_tupleOp_stops_on_error (pre : List OkOut) (e : RtErr)
    (post : List Output) :
    ∀ acc, to_tupleOp acc (withErr pre e post) = .error e := by
  induction pre with
  | nil => intro acc; simp [withErr, to_tupleOp, collect_pair_error]
  | cons o rest ih =>
    intro acc
    simpa [withErr, to_tupleOp, collect_pair_okOut] using
      ih (acc ++ [o.collected])

/-- `to_map` short-circuits on the error when every prefix key was
hashable. -/
theorem to_mapOp_stops_on_error (tryKey : Value → Except RtErr Value)
    (pre : List OkOut) (e : RtErr) (post : List Output)
    (h : ∀ o ∈ pre, ∃ k, tryKey (mapEntry o.out).1 = .ok k) :
    ∀ acc, to_mapOp tryKey acc (withErr pre e post) = .error e := by
  induction pre with
  | nil => intro acc; simp [withErr, to_mapOp]
  | cons o rest ih =>
    intro acc
    obtain ⟨k, hk⟩ := h o (List.mem_cons_self o rest)
    have hrest := fun o' h' => h o' (List.mem_cons_of_mem _ h')
    cases o with
    | v x =>
      simp only [OkOut.out] at hk
      simp [withErr, to_mapOp, OkOut.out, hk]
      simpa [withErr] using ih hrest (mapInsert acc k (mapEntry (.value x)).2)
    | pair a b =>
      simp only [OkOut.out] at hk
      simp [withErr, to_mapOp, OkOut.out, hk]
      simpa [withErr] using ih hrest (mapInsert acc k (mapEntry (.valuePair a b)).2)

/-- One step of `to_string` on an error-free output is `toStrStep` on
its collected value. -/
theorem to_stringOp_step (display : Value → Except RtErr String)
    (o : OkOut) (acc : String) (rest : List Output) :
    to_stringOp display acc (o.out :: rest) =
      match toStrStep display o.collected with
      | .ok s => to_stringOp display (acc ++ s) rest
      | .error e => .error e := by
  cases o with
  | v x => cases x <;> rfl
  | pair a b => rfl

/-- `to_string` short-circuits on the error when every prefix value
rendered successfully. -/
theorem to_stringOp_stops_on_error (display : Value → Except RtErr String)
    (pre : List OkOut) (e : RtErr) (post : List Output)
    (h : ∀ o ∈ pre, ∃ s, toStrStep display o.collected = .ok s) :
    ∀ acc, to_stringOp display acc (withErr pre e post) = .error e := by
  induction pre with
  | nil => intro acc; simp [withErr, to_stringOp, collect_pair_error]
  | cons o rest ih =>
    intro acc
    obtain ⟨s, hs⟩ := h o (List.mem_cons_self o rest)
    have hrest := fun o' h' => h o' (List.mem_cons_of_mem _ h')
    have hcons : withErr (o :: rest) e post = o.out :: withErr rest e post := rfl
    rw [hcons, to_stringOp_step, hs]
    exact ih hrest (acc ++ s)

/-- C7.  Every eager iterator operation short-circuits on the first
error: if the underlying iterator's `i`-th output is `Output::Error e`
(an error-free prefix `pre` of length `i` comes before it) and the
operation's callbacks succeed on that prefix — so the operation
actually reaches position `i` — then the operation returns exactly
`e`.  The outputs past position `i` are universally quantified
(`post`), so the result does not depend on them: nothing past the
error is pulled. -/
theorem eager_ops_error_short_circuit
    (runPredAll runPredAny runPredFind runPredPos runFCons :
      CallArgs → Except RtErr Value)
    (runFold : Value → Value → Except RtErr Value)
    (runBin runLt : BinaryOp → Value → Value → Except RtErr Value)
    (initFold initSum initProd : Value)
    (tryKey : Value → Except RtErr Value)
    (display : Value → Except RtErr String)
    (pre : List OkOut) (e : RtErr) (post : List Output)
    (hall : ∀ o ∈ pre, runPredAll o.args = .ok (.bool true))
    (hany : ∀ o ∈ pre, runPredAny o.args = .ok (.bool false))
    (hfind : ∀ o ∈ pre, runPredFind (.single o.collected) = .ok (.bool false))
    (hpos : ∀ o ∈ pre, runPredPos o.args = .ok (.bool false))
    (hcons : ∀ o ∈ pre, ∃ r, runFCons o.args = .ok r)
    (hfold : ∃ r, foldOp runFold initFold (pre.map OkOut.out) = .ok r)
    (hsum : ∃ r, sumOp runBin initSum (pre.map OkOut.out) = .ok r)
    (hprod : ∃ r, productOp runBin initProd (pre.map OkOut.out) = .ok r)
    (hmin : ∃ r, run_iterator_comparison runLt .no (pre.map OkOut.out) = .ok r)
    (hmax : ∃ r, run_iterator_comparison runLt .yes (pre.map OkOut.out) = .ok r)
    (hminmax : ∃ r, min_maxOp runLt (pre.map OkOut.out) = .ok r)
    (hkey : ∀ o ∈ pre, ∃ k, tryKey (mapEntry o.out).1 = .ok k)
    (hstr : ∀ o ∈ pre, ∃ s, toStrStep display o.collected = .ok s) :
    (allOp runPredAll (withErr pre e post)).1 = .error e ∧
    (anyOp runPredAny (withErr pre e post)).1 = .error e ∧
    countOp 0 (withErr pre e post) = .error e ∧
    consumeDrain (withErr pre e post) = .error e ∧
    (consumeWith runFCons (withErr pre e post)).1 = .error e ∧
    findOp runPredFind (withErr pre e post) = .error e ∧
    foldOp runFold initFold (withErr pre e post) = .error e ∧
    lastOp .null (withErr pre e post) = .error e ∧
    minOp runLt (withErr pre e post) = .error e ∧
    maxOp runLt (withErr pre e post) = .error e ∧
    min_maxOp runLt (withErr pre e post) = .error e ∧
    (positionOp runPredPos 0 (withErr pre e post)).1 = .error e ∧
    sumOp runBin initSum (withErr pre e post) = .error e ∧
    productOp runBin initProd (withErr pre e post) = .error e ∧
    to_listOp [] (withErr pre e post) = .error e ∧
    to_tupleOp [] (withErr pre e post) = .error e ∧
    to_mapOp tryKey [] (withErr pre e post) = .error e ∧
    to_stringOp display "" (withErr pre e post) = .error e := by
  refine ⟨allOp_stops_on_error _ _ _ _ hall,
    anyOp_stops_on_error _ _ _ _ hany,
    countOp_stops_on_error _ _ _ 0,
    consumeDrain_stops_on_error _ _ _,
    consumeWith_stops_on_error _ _ _ _ hcons,
    findOp_stops_on_error _ _ _ _ hfind,
    foldOp_stops_on_error _ _ _ _ initFold hfold,
    lastOp_stops_on_error _ _ _ .null,
    run_iterator_comparison_stops_on_error _ _ _ _ _ hmin,
    run_iterator_comparison_stops_on_error _ _ _ _ _ hmax,
    min_maxLoop_stops_on_error _ _ _ _ none hminmax,
    positionOp_stops_on_error _ _ _ _ hpos 0,
    fold_with_operator_stops_on_error _ _ _ _ _ initSum hsum,
    fold_with_operator_stops_on_error _ _ _ _ _ initProd hprod,
    to_listOp_stops_on_error _ _ _ [],
    to_tupleOp_stops_on_error _ _ _ [],
    to_mapOp_stops_on_error _ _ _ _ hkey [],
    to_stringOp_stops_on_error _ _ _ _ hstr ""⟩

/-- Witness for C7 at a concrete two-output prefix (a value and a
key/value pair), a concrete error and a non-empty `post`. -/
theorem eager_ops_error_short_circuit_witness :
    (allOp (fun _ => .ok (.bool true)) (withErr c7pre c7err c7post)).1 =
      .error c7err ∧
    (anyOp (fun _ => .ok (.bool false)) (withErr c7pre c7err c7post)).1 =
      .error c7err ∧
    countOp 0 (withErr c7pre c7err c7post) = .error c7err ∧
    consumeDrain (withErr c7pre c7err c7post) = .error c7err ∧
    (consumeWith (fun _ => .ok .null) (withErr c7pre c7err c7post)).1 =
      .error c7err ∧
    findOp (fun _ => .ok (.bool false)) (withErr c7pre c7err c7post) =
      .error c7err ∧
    foldOp (fun acc _ => .ok acc) (.int 0) (withErr c7pre c7err c7post) =
      .error c7err ∧
    lastOp .null (withErr c7pre c7err c7post) = .error c7err ∧
    minOp (fun _ _ _ => .ok (.bool true)) (withErr c7pre c7err c7post) =
      .error c7err ∧
    maxOp (fun _ _ _ => .ok (.bool true)) (withErr c7pre c7err c7post) =
      .error c7err ∧
    min_maxOp (fun _ _ _ => .ok (.bool true)) (withErr c7pre c7err c7post) =
      .error c7err ∧
    (positionOp (fun _ => .ok (.bool false)) 0 (withErr c7pre c7err c7post)).1 =
      .error c7err ∧
    sumOp (fun _ a _ => .ok a) (.int 0) (withErr c7pre c7err c7post) =
      .error c7err ∧
    productOp (fun _ a _ => .ok a) (.int 1) (withErr c7pre c7err c7post) =
      .error c7err ∧
    to_listOp [] (withErr c7pre c7err c7post) = .error c7err ∧
    to_tupleOp [] (withErr c7pre c7err c7post) = .error c7err ∧
    to_mapOp (fun v => .ok v) [] (withErr c7pre c7err c7post) = .error c7err ∧
    to_stringOp (fun _ => .ok "v") "" (withErr c7pre c7err c7post) =
      .error c7err :=
  eager_ops_error_short_circuit
    (fun _ => .ok (.bool true)) (fun _ => .ok (.bool false))
    (fun _ => .ok (.bool false)) (fun _ => .ok (.bool false))
    (fun _ => .ok .null)
    (fun acc _ => .ok acc)
    (fun _ a _ => .ok a) (fun _ _ _ => .ok (.bool true))
    (.int 0) (.int 0) (.int 1)
    (fun v => .ok v) (fun _ => .ok "v")
    c7pre c7err c7post
    (fun _ _ => rfl) (fun _ _ => rfl) (fun _ _ => rfl) (fun _ _ => rfl)
    (fun o _ => ⟨.null, rfl⟩)
    ⟨.int 0, rfl⟩ ⟨.int 0, rfl⟩ ⟨.int 1, rfl⟩
    ⟨.int 1, rfl⟩ ⟨.tuple [.int 2, .int 3], rfl⟩
    ⟨.tuple [.int 1, .tuple [.int 2, .int 3]], rfl⟩
    (fun o _ => ⟨(mapEntry o.out).1, rfl⟩)
    (fun o ho => by
      cases ho with
      | head => exact ⟨"v", rfl⟩
      | tail _ h2 =>
        cases h2 with
        | head => exact ⟨"v", rfl⟩
        | tail _ h3 => cases h3)

/-! ## Claim C8: `iterator.next` — shared iterators vs fresh iterables -/

/-- Advancing the freshly allocated slot at the end of the store. -/
theorem storeNext_append (store : Store) (o : Output) (t : List Output) :
    storeNext (store ++ [o :: t]) store.length = (some o, store ++ [t]) := by
  induction store with
  | nil => rfl
  | cons s rest ih =>
    simp only [storeNext, List.cons_append, List.length_cons] at ih ⊢
    simpa [List.getElem?_cons_succ] using ih

/-- Advancing a populated slot pops its head output. -/
theorem storeNext_of_get (store : Store) (h : Nat) (o : Output)
    (rest : List Output) (hget : store[h]? = some (o :: rest)) :
    storeNext store h = (some o, store.set h rest) := by
  simp [storeNext, hget]

/-- `iterator.next` on a non-empty list iterable: a fresh iterator is
allocated and its first element returned, for every store. -/
theorem nextOp_list_cons (store : Store) (v : Value) (vs : List Value) :
    nextOp store (some (.list (v :: vs))) [] =
      .ok (v, store ++ [vs.map .value]) := by
  have happ := storeNext_append store (.value v) (vs.map .value)
  simp [nextOp, make_iterator, iterableOutputs, Value.is_iterable, happ,
    iter_output_to_result]

set_option maxHeartbeats 4000000 in
/-- C8.  `iterator.next` with an `Iterator` instance advances that
iterator's shared state in the store (so successive calls walk through
its outputs), whereas with a non-iterator iterable a fresh iterator is
built per call — so repeated calls return the first element every
time; exhaustion yields `Null`, and a `ValuePair` output is returned
as a 2-tuple.  The argument-position form behaves like the instance
form for every iterable. -/
theorem next_shared_vs_fresh :
    (∀ (store : Store) (h : Nat) (v1 v2 : Value) (rest : List Output),
      store[h]? = some (.value v1 :: .value v2 :: rest) →
        nextOp store (some (.iterator h)) [] =
          .ok (v1, store.set h (.value v2 :: rest)) ∧
        nextOp (store.set h (.value v2 :: rest)) (some (.iterator h)) [] =
          .ok (v2, (store.set h (.value v2 :: rest)).set h rest)) ∧
    (∀ (store : Store) (v : Value) (vs : List Value),
      nextOp store (some (.list (v :: vs))) [] =
        .ok (v, store ++ [vs.map .value]) ∧
      nextOp (store ++ [vs.map .value]) (some (.list (v :: vs))) [] =
        .ok (v, store ++ [vs.map .value] ++ [vs.map .value])) ∧
    (∀ (store : Store) (h : Nat), store[h]? = some [] →
      nextOp store (some (.iterator h)) [] = .ok (.null, store)) ∧
    (∀ (store : Store), nextOp store (some (.list [])) [] =
      .ok (.null, store ++ [[]])) ∧
    (∀ (store : Store) (h : Nat) (a b : Value) (rest : List Output),
      store[h]? = some (.valuePair a b :: rest) →
        nextOp store (some (.iterator h)) [] =
          .ok (.tuple [a, b], store.set h rest)) ∧
    (∀ (store : Store) (v : Value),
      nextOp store none [v] = nextOp store (some v) []) := by
  refine ⟨?_, ?_, ?_, ?_, ?_, ?_⟩
  · intro store h v1 v2 rest hget
    have hlen : h < store.length := by
      have := List.getElem?_eq_some.mp hget
      exact this.1
    have hget2 : (store.set h (.value v2 :: rest))[h]? =
        some (.value v2 :: rest) :=
      List.getElem?_set_eq_of_lt _ (by simpa using hlen)
    constructor
    · simp [nextOp, storeNext_of_get store h _ _ hget, iter_output_to_result]
    · simp [nextOp, storeNext_of_get _ h _ _ hget2, iter_output_to_result]
  · intro store v vs
    exact ⟨nextOp_list_cons store v vs,
      nextOp_list_cons (store ++ [vs.map .value]) v vs⟩
  · intro store h hget
    simp [nextOp, storeNext, hget, iter_output_to_result]
  · intro store
    simp [nextOp, make_iterator, iterableOutputs, Value.is_iterable, storeNext,
      iter_output_to_result, List.getElem?_concat_length]
  · intro store h a b rest hget
    simp [nextOp, storeNext_of_get store h _ _ hget, iter_output_to_result]
  · intro store v
    cases v <;> rfl

/-- Witness for C8 on the concrete store `c8store`. -/
theorem next_shared_vs_fresh_witness :
    (nextOp c8store (some (.iterator 0)) [] =
        .ok (.int 7, c8store.set 0 [.value (.int 8)]) ∧
      nextOp (c8store.set 0 [.value (.int 8)]) (some (.iterator 0)) [] =
        .ok (.int 8, (c8store.set 0 [.value (.int 8)]).set 0 [])) ∧
    (nextOp c8store (some (.list [.int 1, .int 2])) [] =
        .ok (.int 1, c8store ++ [[.value (.int 2)]])) ∧
    nextOp c8store (some (.iterator 2)) [] = .ok (.null, c8store) ∧
    nextOp c8store (some (.iterator 1)) [] =
      .ok (.tuple [.str "k", .int 9], c8store.set 1 []) ∧
    nextOp c8store none [.list [.int 1, .int 2]] =
      nextOp c8store (some (.list [.int 1, .int 2])) [] := by
  refine ⟨?_, ?_, ?_, ?_, ?_⟩
  · exact next_shared_vs_fresh.1 c8store 0 (.int 7) (.int 8) [] rfl
  · exact (next_shared_vs_fresh.2.1 c8store (.int 1) [.int 2]).1
  · exact next_shared_vs_fresh.2.2.1 c8store 2 rfl
  · exact next_shared_vs_fresh.2.2.2.2.1 c8store 1 (.str "k") (.int 9) [] rfl
  · exact next_shared_vs_fresh.2.2.2.2.2 c8store (.list [.int 1, .int 2])

/-! ## Claim C9: `iterator.intersperse` dispatches on callability -/

/-- C9.  `iterator.intersperse` selects `IntersperseWith` exactly for
callable separator arguments, and uses only non-callable values as
literal separators — so a function value is never interspersed as a
literal element. -/
theorem intersperse_dispatch :
    (∀ iterable sep, sep.is_callable = true →
      intersperseOp iterable [sep] = .ok (.intersperseWith iterable sep)) ∧
    (∀ iterable sep, sep.is_callable = false →
      intersperseOp iterable [sep] = .ok (.intersperse iterable sep)) ∧
    (∀ iterable args it s,
      intersperseOp iterable args = .ok (.intersperse it s) →
      s.is_callable = false) := by
  refine ⟨?_, ?_, ?_⟩
  · intro iterable sep h
    simp [intersperseOp, h]
  · intro iterable sep h
    simp [intersperseOp, h]
  · intro iterable args it s h
    match args with
    | [] => cases h
    | [sep] =>
      by_cases hc : sep.is_callable
      · simp [intersperseOp, hc] at h
      · simp [intersperseOp, hc] at h
        rw [← h.2]
        exact Bool.eq_false_iff.mpr hc
    | _ :: _ :: _ => cases h

/-- Witness for C9 with a function separator and an integer
separator. -/
theorem intersperse_dispatch_witness :
    intersperseOp (.list []) [.fnVal 0] =
      .ok (.intersperseWith (.list []) (.fnVal 0)) ∧
    intersperseOp (.list []) [.int 0] =
      .ok (.intersperse (.list []) (.int 0)) ∧
    ((Value.int 0).is_callable = false) :=
  ⟨intersperse_dispatch.1 (.list []) (.fnVal 0) rfl,
   intersperse_dispatch.2.1 (.list []) (.int 0) rfl,
   intersperse_dispatch.2.2 (.list []) [.int 0] (.list []) (.int 0)
     (intersperse_dispatch.2.1 (.list []) (.int 0) rfl)⟩

/-! ## Claim C10: pairs reach callbacks as one 2-tuple -/

/-- Membership in a trace is stable under extending the output list. -/
theorem traceOk_mono {out : Output} {outs : List Output} {args : CallArgs}
    (h : TraceOk outs args) : TraceOk (out :: outs) args := by
  rcases h with ⟨v, rfl, hm⟩ | ⟨a, b, rfl, hm⟩
  · exact .inl ⟨v, rfl, List.mem_cons_of_mem _ hm⟩
  · exact .inr ⟨a, b, rfl, List.mem_cons_of_mem _ hm⟩

/-- One `all` step only records its own argument package on top of the
recursive trace. -/
theorem allStep_trace_sub (runPred : CallArgs → Except RtErr Value)
    (a : CallArgs) (rest : List Output) :
    (allOp.allStep runPred a rest).2 ⊆ a :: (allOp runPred rest).2 := by
  unfold allOp.allStep
  cases runPred a with
  | ok r =>
    cases r with
    | bool b => cases b <;> simp
    | _ => simp
  | error e => simp

/-- One `any` step only records its own argument package on top of the
recursive trace. -/
theorem anyStep_trace_sub (runPred : CallArgs → Except RtErr Value)
    (a : CallArgs) (rest : List Output) :
    (anyOp.anyStep runPred a rest).2 ⊆ a :: (anyOp runPred rest).2 := by
  unfold anyOp.anyStep
  cases runPred a with
  | ok r =>
    cases r with
    | bool b => cases b <;> simp
    | _ => simp
  | error e => simp

/-- One `position` step only records its own argument package on top
of the recursive trace. -/
theorem positionStep_trace_sub (runPred : CallArgs → Except RtErr Value)
    (i : Nat) (a : CallArgs) (rest : List Output) :
    (positionOp.positionStep runPred i a rest).2 ⊆
      a :: (positionOp runPred (i + 1) rest).2 := by
  unfold positionOp.positionStep
  cases runPred a with
  | ok r =>
    cases r with
    | bool b => cases b <;> simp
    | _ => simp
  | error e => simp

/-- One `consume` step only records its own argument package on top of
the recursive trace. -/
theorem consumeStep_trace_sub (runF : CallArgs → Except RtErr Value)
    (a : CallArgs) (rest : List Output) :
    (consumeWith.consumeStep runF a rest).2 ⊆
      a :: (consumeWith runF rest).2 := by
  unfold consumeWith.consumeStep
  cases runF a with
  | ok r => simp
  | error e => simp

/-- Every argument package `all` passes to the predicate obeys the
pair convention. -/
theorem allOp_trace (runPred : CallArgs → Except RtErr Value) :
    ∀ outs, ∀ args ∈ (allOp runPred outs).2, TraceOk outs args := by
  intro outs
  induction outs with
  | nil => intro args h; simp [allOp] at h
  | cons out rest ih =>
    intro args h
    cases out with
    | error e => simp [allOp] at h
    | value v =>
      have hsub := allStep_trace_sub runPred (.single v) rest
      simp only [allOp] at h
      rcases List.mem_cons.mp (hsub h) with h1 | h1
      · exact .inl ⟨v, h1, List.mem_cons_self _ _⟩
      · exact traceOk_mono (ih args h1)
    | valuePair a b =>
      have hsub := allStep_trace_sub runPred (.asTuple [a, b]) rest
      simp only [allOp] at h
      rcases List.mem_cons.mp (hsub h) with h1 | h1
      · exact .inr ⟨a, b, h1, List.mem_cons_self _ _⟩
      · exact traceOk_mono (ih args h1)

/-- Every argument package `any` passes to the predicate obeys the
pair convention. -/
theorem anyOp_trace (runPred : CallArgs → Except RtErr Value) :
    ∀ outs, ∀ args ∈ (anyOp runPred outs).2, TraceOk outs args := by
  intro outs
  induction outs with
  | nil => intro args h; simp [anyOp] at h
  | cons out rest ih =>
    intro args h
    cases out with
    | error e => simp [anyOp] at h
    | value v =>
      have hsub := anyStep_trace_sub runPred (.single v) rest
      simp only [anyOp] at h
      rcases List.mem_cons.mp (hsub h) with h1 | h1
      · exact .inl ⟨v, h1, List.mem_cons_self _ _⟩
      · exact traceOk_mono (ih args h1)
    | valuePair a b =>
      have hsub := anyStep_trace_sub runPred (.asTuple [a, b]) rest
      simp only [anyOp] at h
      rcases List.mem_cons.mp (hsub h) with h1 | h1
      · exact .inr ⟨a, b, h1, List.mem_cons_self _ _⟩
      · exact traceOk_mono (ih args h1)

/-- Every argument package `position` passes to the predicate obeys
the pair convention. -/
theorem positionOp_trace (runPred : CallArgs → Except RtErr Value) :
    ∀ outs i, ∀ args ∈ (positionOp runPred i outs).2, TraceOk outs args := by
  intro outs
  induction outs with
  | nil => intro i args h; simp [positionOp] at h
  | cons out rest ih =>
    intro i args h
    cases out with
    | error e => simp [positionOp] at h
    | value v =>
      have hsub := positionStep_trace_sub runPred i (.single v) rest
      simp only [positionOp] at h
      rcases List.mem_cons.mp (hsub h) with h1 | h1
      · exact .inl ⟨v, h1, List.mem_cons_self _ _⟩
      · exact traceOk_mono (ih (i + 1) args h1)
    | valuePair a b =>
      have hsub := positionStep_trace_sub runPred i (.asTuple [a, b]) rest
      simp only [positionOp] at h
      rcases List.mem_cons.mp (hsub h) with h1 | h1
      · exact .inr ⟨a, b, h1, List.mem_cons_self _ _⟩
      · exact traceOk_mono (ih (i + 1) args h1)

/-- Every argument package `consume` passes to the consumer obeys the
pair convention. -/
theorem consumeWith_trace (runF : CallArgs → Except RtErr Value) :
    ∀ outs, ∀ args ∈ (consumeWith runF outs).2, TraceOk outs args := by
  intro outs
  induction outs with
  | nil => intro args h; simp [consumeWith] at h
  | cons out rest ih =>
    intro args h
    cases out with
    | error e => simp [consumeWith] at h
    | value v =>
      have hsub := consumeStep_trace_sub runF (.single v) rest
      simp only [consumeWith] at h
      rcases List.mem_cons.mp (hsub h) with h1 | h1
      · exact .inl ⟨v, h1, List.mem_cons_self _ _⟩
      · exact traceOk_mono (ih args h1)
    | valuePair a b =>
      have hsub := consumeStep_trace_sub runF (.asTuple [a, b]) rest
      simp only [consumeWith] at h
      rcases List.mem_cons.mp (hsub h) with h1 | h1
      · exact .inr ⟨a, b, h1, List.mem_cons_self _ _⟩
      · exact traceOk_mono (ih args h1)

/-- C10.  In `all`, `any`, `position` and `consume`, every argument
package handed to the user callback is `Single v` for a value output
or `AsTuple [k, v]` for a `ValuePair(k, v)` output of the iterator —
pairs are presented as one 2-tuple, never as two separate arguments. -/
theorem callbacks_get_pairs_as_tuples
    (runPredAll runPredAny runPredPos runFCons : CallArgs → Except RtErr Value)
    (outs : List Output) (i : Nat) :
    (∀ args ∈ (allOp runPredAll outs).2, TraceOk outs args) ∧
    (∀ args ∈ (anyOp runPredAny outs).2, TraceOk outs args) ∧
    (∀ args ∈ (positionOp runPredPos i outs).2, TraceOk outs args) ∧
    (∀ args ∈ (consumeWith runFCons outs).2, TraceOk outs args) :=
  ⟨allOp_trace runPredAll outs, anyOp_trace runPredAny outs,
   positionOp_trace runPredPos outs i, consumeWith_trace runFCons outs⟩

/-- Witness for C10 at a concrete map-style output list: the pair
output reaches the callback as `AsTuple [k, v]`. -/
theorem callbacks_get_pairs_as_tuples_witness :
    TraceOk [.valuePair (.str "k") (.int 5)]
      (.asTuple [.str "k", .int 5]) :=
  (callbacks_get_pairs_as_tuples (fun _ => .ok (.bool true))
      (fun _ => .ok (.bool true)) (fun _ => .ok (.bool true))
      (fun _ => .ok .null)
      [.valuePair (.str "k") (.int 5)] 0).1
    (.asTuple [.str "k", .int 5]) (by
      simp [allOp, allOp.allStep])

/-! ## Claims C3, C4: parser scope analysis -/

namespace Parse

/-- `withFrame` only touches the frame stack. -/
theorem withFrame_fns {st : PState} {f : Frame → Frame} {st' : PState}
    (h : withFrame st f = .ok st') : st'.fns = st.fns := by
  unfold withFrame at h
  split at h
  · cases h
  · cases h
    rfl

/-- `parse_id_expression` only consumes tokens and updates the frame. -/
theorem parse_id_expression_fns {st : PState} {n : PNode} {st' : PState}
    (h : parse_id_expression st = .ok (some (n, st'))) : st'.fns = st.fns := by
  unfold parse_id_expression at h
  split at h
  · rename_i idx st1 heqId
    split at h
    · rename_i st2 hw
      cases h
      have h1 : st1.fns = st.fns := by
        unfold parse_id at heqId
        split at heqId
        · cases heqId
          rfl
        · cases heqId
      rw [withFrame_fns hw, h1]
    · cases h
  · cases h

/-- `processTargets` only updates the frame stack. -/
theorem processTargets_fns :
    ∀ (lhs : List PNode) (st st' : PState),
      processTargets st lhs = .ok st' → st'.fns = st.fns := by
  intro lhs
  induction lhs with
  | nil =>
    intro st st' h
    cases h
    rfl
  | cons t rest ih =>
    intro st st' h
    cases t with
    | idNode idx =>
      unfold processTargets at h
      split at h
      · cases h
      · split at h
        · cases h
        · rw [ih _ _ h]
    | fnNode => cases h
    | assignNode => cases h

/-- The fueled parser functions preserve well-countedness of all
recorded function nodes: every `Function` node is recorded with
`local_count` taken from its popped frame's `Frame::local_count`,
which is the size of `ids_assigned_in_scope ∖ accessed_non_locals`. -/
theorem parser_fns_preserved : ∀ fuel : Nat,
    (∀ st n st', parse_function fuel st = .ok (n, st') →
      GoodFns st → GoodFns st') ∧
    (∀ st n st', parse_line fuel st = .ok (some (n, st')) →
      GoodFns st → GoodFns st') ∧
    (∀ st n st', parse_primary_expressions fuel st = .ok (some (n, st')) →
      GoodFns st → GoodFns st') ∧
    (∀ st n st', parse_expression_start fuel st = .ok (some (n, st')) →
      GoodFns st → GoodFns st') ∧
    (∀ st n st', parse_term fuel st = .ok (some (n, st')) →
      GoodFns st → GoodFns st') ∧
    (∀ lhs st n st', parse_expression_continued fuel lhs st = .ok (some (n, st')) →
      GoodFns st → GoodFns st') ∧
    (∀ lhs st n st', parse_assign_expression fuel lhs st = .ok (some (n, st')) →
      GoodFns st → GoodFns st') ∧
    (∀ st st', mainLoop fuel st = .ok st' → GoodFns st → GoodFns st') := by
  intro fuel
  induction fuel with
  | zero =>
    refine ⟨?_, ?_, ?_, ?_, ?_, ?_, ?_, ?_⟩
    · intro st n st' h
      simp [parse_function] at h
    · intro st n st' h
      simp [parse_line] at h
    · intro st n st' h
      simp [parse_primary_expressions] at h
    · intro st n st' h
      simp [parse_expression_start] at h
    · intro st n st' h
      simp [parse_term] at h
    · intro lhs st n st' h
      simp [parse_expression_continued] at h
    · intro lhs st n st' h
      simp [parse_assign_expression] at h
    · intro st st' h
      simp [mainLoop] at h
  | succ fuel ih =>
    obtain ⟨ihf, ihl, ihp, ihs, iht, ihc, iha, ihm⟩ := ih
    have hfun : ∀ st n st', parse_function (fuel + 1) st = .ok (n, st') →
        GoodFns st → GoodFns st' := by
      intro st n st' h hg
      unfold parse_function at h
      split at h
      · split at h
        split at h
        · split at h
          · split at h
            · split at h
              · cases h
                rename_i b st3 heqLine x1 child parents heqFrames x2 st4 heqWF
                intro fn hfn
                rcases List.mem_append.mp hfn with hmem | hmem
                · have h3 : GoodFns st3 := ihl _ _ _ heqLine hg
                  exact h3 fn ((withFrame_fns heqWF) ▸ hmem)
                · rw [List.mem_singleton.mp hmem]
                  show child.local_count = _
                  rfl
              · cases h
            · cases h
          · cases h
          · cases h
        · cases h
      · cases h
    have hline : ∀ st n st', parse_line (fuel + 1) st = .ok (some (n, st')) →
        GoodFns st → GoodFns st' := by
      intro st n st' h hg
      unfold parse_line at h
      split at h
      · split at h
        · cases h
          rename_i x1 st1 x2 heqPrim heqFin
          intro fn hfn
          exact ihp _ _ _ heqPrim hg fn ((withFrame_fns heqFin) ▸ hfn)
        · cases h
      · cases h
      · cases h
    have hprim : ∀ st n st',
        parse_primary_expressions (fuel + 1) st = .ok (some (n, st')) →
        GoodFns st → GoodFns st' := by
      intro st n st' h hg
      unfold parse_primary_expressions at h
      exact ihs _ _ _ h hg
    have hterm : ∀ st n st', parse_term (fuel + 1) st = .ok (some (n, st')) →
        GoodFns st → GoodFns st' := by
      intro st n st' h hg
      unfold parse_term at h
      split at h
      · split at h
        · cases h
          rename_i heqFun
          exact ihf _ _ _ heqFun hg
        · cases h
      · cases h
    have hcont : ∀ lhs st n st',
        parse_expression_continued (fuel + 1) lhs st = .ok (some (n, st')) →
        GoodFns st → GoodFns st' := by
      intro lhs st n st' h hg
      unfold parse_expression_continued at h
      split at h
      · exact iha _ _ _ _ h hg
      · cases h
        exact hg
    have hassign : ∀ lhs st n st',
        parse_assign_expression (fuel + 1) lhs st = .ok (some (n, st')) →
        GoodFns st → GoodFns st' := by
      intro lhs st n st' h hg
      unfold parse_assign_expression at h
      split at h
      · split at h
        · cases h
          rename_i st2 heqT n3 st3 heqPrim
          have hg2 : GoodFns st2 := by
            intro fn hfn
            exact hg fn ((processTargets_fns _ _ _ heqT) ▸ hfn)
          exact ihp _ _ _ heqPrim hg2
        · cases h
        · cases h
      · cases h
    have hstart : ∀ st n st',
        parse_expression_start (fuel + 1) st = .ok (some (n, st')) →
        GoodFns st → GoodFns st' := by
      intro st n st' h hg
      unfold parse_expression_start at h
      split at h
      · rename_i n1 st1 heqId
        have hg1 : GoodFns st1 := by
          intro fn hfn
          exact hg fn ((parse_id_expression_fns heqId) ▸ hfn)
        exact ihc _ _ _ _ h hg1
      · split at h
        · rename_i n1 st1 heqTerm
          exact ihc _ _ _ _ h (iht _ _ _ heqTerm hg)
        · cases h
        · cases h
      · cases h
    have hmain : ∀ st st', mainLoop (fuel + 1) st = .ok st' →
        GoodFns st → GoodFns st' := by
      intro st st' h hg
      unfold mainLoop at h
      split at h
      · cases h
        exact hg
      · split at h
        · rename_i n1 st1 heqLine
          exact ihm _ _ h (ihl _ _ _ heqLine hg)
        · cases h
        · cases h
    exact ⟨hfun, hline, hprim, hstart, hterm, hcont, hassign, hmain⟩


/-- Every `Function` node in a successful parse is well-counted. -/
theorem parse_fns_wellCounted (fuel : Nat) (toks : List Tok) (r : ParseResult)
    (h : parse fuel toks = .ok r) :
    ∀ fn ∈ r.fns, fn.wellCounted := by
  unfold parse at h
  split at h
  · split at h
    · cases h
      rename_i x1 st heqMain x2 mainFrame heqFrames
      intro fn hfn
      exact (parser_fns_preserved fuel).2.2.2.2.2.2.2 _ _ heqMain
        (by intro fn' hfn'; cases hfn') fn hfn
    · cases h
  · cases h

/-- C3 counterexample.  Parsing `|| b = a` records one `Function` node
with `ids_assigned_in_scope = {b}`, `accessed_non_locals = {a}` and
`local_count = 1` (the size of `{b} ∖ {a}`), but the claim's
subtraction of cardinalities gives `1 − 1 = 0 ≠ 1`. -/
theorem function_local_count_counterexample :
    parse 100 toksBA =
      .ok { fns := [fnBA], main_local_count := 0,
            main_ids_assigned_in_scope := [],
            main_accessed_non_locals := [1] } ∧
    fnBA.local_count ≠
      fnBA.ids_assigned_in_scope.length - fnBA.accessed_non_locals.length :=
  ⟨rfl, by decide⟩

/-- C3 amended.  For every `Function` node `F` in an AST returned by
`parse`, the recorded `local_count` is the cardinality of the set
difference `ids_assigned_in_scope(F) ∖ accessed_non_locals(F)` (the
sets are duplicate-free lists, so the filter length is the
cardinality); it is not in general the subtraction
`|ids_assigned_in_scope(F)| − |accessed_non_locals(F)|`. -/
theorem function_local_count (fuel : Nat) (toks : List Tok)
    (r : ParseResult) (h : parse fuel toks = .ok r) :
    ∀ fn ∈ r.fns, fn.local_count =
      (fn.ids_assigned_in_scope.filter
        (fun x => decide (x ∉ fn.accessed_non_locals))).length :=
  parse_fns_wellCounted fuel toks r h

/-- Witness for the amended C3 theorem on the parse of `|| b = a`. -/
theorem function_local_count_witness :
    fnBA.local_count =
      (fnBA.ids_assigned_in_scope.filter
        (fun x => decide (x ∉ fnBA.accessed_non_locals))).length :=
  function_local_count 100 toksBA
    { fns := [fnBA], main_local_count := 0,
      main_ids_assigned_in_scope := [],
      main_accessed_non_locals := [1] } rfl fnBA (by simp)

/-- C4.  Evaluating the parser on `|| a = a` (where `a` is not
previously bound): the recorded `Function` node has
`ids_assigned_in_scope = {a}` as the claim states, but
`accessed_non_locals = []` and `local_count = 1` — not `[a]` and `0` —
because `finish_expressions` skips ids already in
`ids_assigned_in_scope`, so the right-hand-side read of `a` before the
assignment is never recorded as a capture.  This contradicts the
source's own comment on `Frame::expression_id_accesses` (the `|| a = a`
example) and the spec. -/
theorem parse_aa_single_pass :
    parse 100 toksAA =
      .ok { fns := [fnAA], main_local_count := 0,
            main_ids_assigned_in_scope := [],
            main_accessed_non_locals := [] } ∧
    fnAA.accessed_non_locals = [] ∧ fnAA.local_count = 1 ∧
    fnAA.ids_assigned_in_scope = [0] :=
  ⟨rfl, rfl, rfl, rfl⟩

end Parse

end Koto
